import Mathlib

/-!
# Intel ADSP microphone-privacy driver

Shallow embedding of `drivers/intel/mic_privacy/mic_privacy.c` and of
`include/zephyr/drivers/mic_privacy.h`.

* Registers are natural numbers; every bus access truncates to the access
  width (`% 2 ^ 16`, `% 2 ^ 32`).
* A C bit-field is a pair (bit offset, width) inside the `full` member of its
  union; reading is shift-and-mask, assignment replaces exactly these bits.
* The driver functions pass the hardware state explicitly and log every bus
  access and every interrupt-controller call in a chronological trace.
-/

namespace MicPrivacy

/-! ## Bit-fields -/

/-- Read of a C bit-field of `width` bits located at bit `off` of `full`. -/
def getField (off width full : Nat) : Nat :=
  (full >>> off) % 2 ^ width

/-- Assignment `part.field = x` to a C bit-field of `width` bits at bit `off`:
the value is converted to the field width, the bits of the field are replaced
and every other bit of `full` is kept. -/
def setField (off width x full : Nat) : Nat :=
  (full ^^^ (full &&& ((2 ^ width - 1) <<< off))) ||| ((x % 2 ^ width) <<< off)

/-! ## Types of `mic_privacy.h` -/

/-- The `enum mic_privacy_policy` of the header. -/
inductive mic_privacy_policy where
  | DISABLED
  | HW_MANAGED
  | FW_MANAGED
  | FORCE_MIC_DISABLED
  deriving DecidableEq, Repr

/-- Enumerator values of `enum mic_privacy_policy`. -/
def mic_privacy_policy.toNat : mic_privacy_policy → Nat
  | .DISABLED => 0
  | .HW_MANAGED => 1
  | .FW_MANAGED => 2
  | .FORCE_MIC_DISABLED => 3

/-- The `struct intel_adsp_mic_priv_cfg` of the header. -/
structure intel_adsp_mic_priv_cfg where
  base : Nat
  regblock_size : Nat
  deriving DecidableEq, Repr

/-- The `struct device` as far as the driver can see it: its configuration. -/
structure device where
  config : intel_adsp_mic_priv_cfg
  deriving DecidableEq, Repr

/-! ## Register layouts (`mic_privacy_registers.h`) -/

/-- Modelled from the spec: the declaration of `union DFMICPVCP` is in
`mic_privacy_registers.h`, which is not among the sources. The driver names the
members `ddze`, `ddzpl`, `ddzwt`, `ddzls`; the spec gives `ddze` two bits and
`ddzpl` one bit and calls the other two multi-bit. The bit offsets, and the
widths of `ddzwt` and `ddzls`, are parameters. -/
structure DFMICPVCP where
  ddze : Nat
  ddzpl : Nat
  ddzwt : Nat
  ddzwt_width : Nat
  ddzls : Nat
  ddzls_width : Nat
  deriving DecidableEq, Repr

/-- Modelled from the spec: the declaration of `union DFFWMICPVCCS` is in
`mic_privacy_registers.h`, which is not among the sources. The driver names the
members `mdstschgie` (status-change-interrupt-enable), `fmmd`
(firmware-managed-mode-enable), `fmdsts` (firmware-asserted-mic-disable-status),
`mdstschg` (status-change-pending) and `mdsts` (hardware-reported
mic-disable-status); the spec makes each one bit wide. Their bit positions are
parameters. -/
structure DFFWMICPVCCS where
  mdstschgie : Nat
  fmmd : Nat
  fmdsts : Nat
  mdstschg : Nat
  mdsts : Nat
  deriving DecidableEq, Repr

/-- The five one-bit members occupy distinct bits of the 16-bit `full`. -/
def DFFWMICPVCCS.WellFormed (L : DFFWMICPVCCS) : Prop :=
  [L.mdstschgie, L.fmmd, L.fmdsts, L.mdstschg, L.mdsts].Nodup ∧
    ∀ p ∈ [L.mdstschgie, L.fmmd, L.fmdsts, L.mdstschg, L.mdsts], p < 16

instance (L : DFFWMICPVCCS) : Decidable L.WellFormed := by
  unfold DFFWMICPVCCS.WellFormed; infer_instance

/-- The members `ddze` and `ddzpl` lie inside the 32-bit `full` and do not
overlap. -/
def DFMICPVCP.PolicyFieldsOk (L : DFMICPVCP) : Prop :=
  L.ddze + 2 ≤ 32 ∧ L.ddzpl < 32 ∧ (L.ddzpl < L.ddze ∨ L.ddze + 2 ≤ L.ddzpl)

instance (L : DFMICPVCP) : Decidable L.PolicyFieldsOk := by
  unfold DFMICPVCP.PolicyFieldsOk; infer_instance

/-! ## Platform and hardware state -/

/-- What the build supplies to the driver: the devicetree constants
`DT_INST_REG_ADDR(0)` and `DT_INST_IRQN(0)`, the two register layouts, and the
way the control/status register reacts to a 16-bit write (old contents and
written data give the new contents). -/
structure Platform where
  reg_addr : Nat
  irqn : Nat
  pvcp : DFMICPVCP
  pvccs : DFFWMICPVCCS
  write16_effect : Nat → Nat → Nat

/-- One observable action of the driver. -/
inductive Event where
  | read16 (addr : Nat)
  | write16 (data addr : Nat)
  | read32 (addr : Nat)
  | irq_connect_dynamic (irq routine : Nat)
  | irq_enable (irq : Nat)
  | intc_unmask (value : Nat)
  deriving DecidableEq, Repr

/-- Hardware and kernel state the driver touches: the two registers, the line
state and the handler slot of the mic-privacy interrupt, the interrupt
controller's enable word `ACE_DINT[0].ie[ACE_INTL_MIC_PRIV]`, and the trace. -/
structure Hw where
  dfmicpvcp : Nat
  dffwmicpvccs : Nat
  irq_enabled : Bool
  isr : Option Nat
  intc_ie : Nat
  trace : List Event
  deriving DecidableEq, Repr

/-- The macro `CONFIG_ADSP_DFMICPVCP_ADDRESS`: the register base itself. -/
def CONFIG_ADSP_DFMICPVCP_ADDRESS (P : Platform) : Nat := P.reg_addr

/-- The macro `CONFIG_ADSP_DFFWMICPVCCS_ADDRESS`: the register base plus 0x0006. -/
def CONFIG_ADSP_DFFWMICPVCCS_ADDRESS (P : Platform) : Nat := P.reg_addr + 0x0006

/-- Modelled from the spec: `sys_read32` is a kernel primitive outside the
sources; per the spec's RegisterSpace it is a 32-bit read at the given address.
Only the policy control register is mapped; other addresses read as 0. -/
def sys_read32 (P : Platform) (addr : Nat) (s : Hw) : Nat × Hw :=
  (if addr = CONFIG_ADSP_DFMICPVCP_ADDRESS P then s.dfmicpvcp % 2 ^ 32 else 0,
   { s with trace := s.trace ++ [Event.read32 addr] })

/-- Modelled from the spec: `sys_read16` is a kernel primitive outside the
sources; per the spec's RegisterSpace it is a 16-bit read at the given address.
Only the control/status register is mapped; other addresses read as 0. -/
def sys_read16 (P : Platform) (addr : Nat) (s : Hw) : Nat × Hw :=
  (if addr = CONFIG_ADSP_DFFWMICPVCCS_ADDRESS P then s.dffwmicpvccs % 2 ^ 16 else 0,
   { s with trace := s.trace ++ [Event.read16 addr] })

/-- Modelled from the spec: `sys_write16` is a kernel primitive outside the
sources; per the spec's RegisterSpace it is a 16-bit write at the given
address. The data is truncated to 16 bits; the register reacts as the platform
says; writes to other addresses are dropped. -/
def sys_write16 (P : Platform) (data addr : Nat) (s : Hw) : Hw :=
  { s with
    dffwmicpvccs :=
      if addr = CONFIG_ADSP_DFFWMICPVCCS_ADDRESS P then
        P.write16_effect s.dffwmicpvccs (data % 2 ^ 16)
      else s.dffwmicpvccs
    trace := s.trace ++ [Event.write16 (data % 2 ^ 16) addr] }

/-! ## The driver: policy decoding -/

/-- The function `mic_privacy_get_policy` of `mic_privacy.c`. -/
def mic_privacy_get_policy (P : Platform) (s : Hw) : mic_privacy_policy × Hw :=
  let r := sys_read32 P (CONFIG_ADSP_DFMICPVCP_ADDRESS P) s
  let full := r.1
  let ddze := getField P.pvcp.ddze 2 full
  let ddzpl := getField P.pvcp.ddzpl 1 full
  if ddze = 2 ∧ ddzpl = 1 then (mic_privacy_policy.HW_MANAGED, r.2)
  else if ddze = 2 ∧ ddzpl = 0 then (mic_privacy_policy.FW_MANAGED, r.2)
  else if ddze = 3 then (mic_privacy_policy.FORCE_MIC_DISABLED, r.2)
  else (mic_privacy_policy.DISABLED, r.2)

/-- The table of the spec's data model: enable=2, polarity=1 is
HardwareManaged; enable=2, polarity=0 is FirmwareManaged; enable=3 is
ForceMicDisabled for either polarity; every other combination is Disabled. -/
def spec_policy_table : Nat → Nat → mic_privacy_policy
  | 2, 1 => .HW_MANAGED
  | 2, 0 => .FW_MANAGED
  | 3, 0 => .FORCE_MIC_DISABLED
  | 3, 1 => .FORCE_MIC_DISABLED
  | _, _ => .DISABLED

/-- The function `mic_privacy_get_privacy_policy_register_raw_value`. -/
def mic_privacy_get_privacy_policy_register_raw_value (P : Platform) (s : Hw) : Nat × Hw :=
  sys_read32 P (CONFIG_ADSP_DFMICPVCP_ADDRESS P) s

/-- The function `mic_privacy_get_dma_data_zeroing_wait_time`. -/
def mic_privacy_get_dma_data_zeroing_wait_time (P : Platform) (s : Hw) : Nat × Hw :=
  let r := sys_read32 P (CONFIG_ADSP_DFMICPVCP_ADDRESS P) s
  (getField P.pvcp.ddzwt P.pvcp.ddzwt_width r.1, r.2)

/-- The function `mic_privacy_get_dma_data_zeroing_link_select`. -/
def mic_privacy_get_dma_data_zeroing_link_select (P : Platform) (s : Hw) : Nat × Hw :=
  let r := sys_read32 P (CONFIG_ADSP_DFMICPVCP_ADDRESS P) s
  (getField P.pvcp.ddzls P.pvcp.ddzls_width r.1, r.2)

/-! ## The driver: firmware-managed control/status register -/

/-- The function `mic_privacy_get_fw_managed_mic_disable_status`. -/
def mic_privacy_get_fw_managed_mic_disable_status (P : Platform) (s : Hw) : Nat × Hw :=
  let r := sys_read16 P (CONFIG_ADSP_DFFWMICPVCCS_ADDRESS P) s
  (getField P.pvccs.mdsts 1 r.1, r.2)

/-- The function `mic_privacy_set_fw_managed_mode`. -/
def mic_privacy_set_fw_managed_mode (P : Platform) (is_fw_managed_enabled : Bool) (s : Hw) :
    Hw :=
  let r := sys_read16 P (CONFIG_ADSP_DFFWMICPVCCS_ADDRESS P) s
  let full :=
    if is_fw_managed_enabled then setField P.pvccs.fmmd 1 1 r.1
    else setField P.pvccs.fmmd 1 0 r.1
  sys_write16 P full (CONFIG_ADSP_DFFWMICPVCCS_ADDRESS P) r.2

/-- The function `mic_privacy_set_fw_mic_disable_status`. -/
def mic_privacy_set_fw_mic_disable_status (P : Platform) (fw_mic_disable_status : Bool)
    (s : Hw) : Hw :=
  let r := sys_read16 P (CONFIG_ADSP_DFFWMICPVCCS_ADDRESS P) s
  let full :=
    if fw_mic_disable_status then setField P.pvccs.fmdsts 1 1 r.1
    else setField P.pvccs.fmdsts 1 0 r.1
  sys_write16 P full (CONFIG_ADSP_DFFWMICPVCCS_ADDRESS P) r.2

/-- The function `mic_privacy_get_fw_mic_disable_status`. -/
def mic_privacy_get_fw_mic_disable_status (P : Platform) (s : Hw) : Nat × Hw :=
  let r := sys_read16 P (CONFIG_ADSP_DFFWMICPVCCS_ADDRESS P) s
  (getField P.pvccs.fmdsts 1 r.1, r.2)

/-! ## The driver: interrupt plumbing -/

/-- Modelled from the spec: `irq_is_enabled` is a kernel primitive outside the
sources; it reports the line state the interrupt controller holds. -/
def irq_is_enabled (_irq : Nat) (s : Hw) : Bool := s.irq_enabled

/-- Modelled from the spec: `irq_connect_dynamic` is a kernel primitive outside
the sources; it binds the routine as the callback of the interrupt
identifier, replacing what the slot held. -/
def irq_connect_dynamic (irq routine : Nat) (s : Hw) : Hw :=
  { s with isr := some routine, trace := s.trace ++ [Event.irq_connect_dynamic irq routine] }

/-- Modelled from the spec: `irq_enable` is a kernel primitive outside the
sources; it enables the interrupt line at the interrupt controller. -/
def irq_enable (irq : Nat) (s : Hw) : Hw :=
  { s with irq_enabled := true, trace := s.trace ++ [Event.irq_enable irq] }

/-- The function `ace_mic_priv_intc_unmask`: stores `BIT(0)` in
`ACE_DINT[0].ie[ACE_INTL_MIC_PRIV]`. -/
def ace_mic_priv_intc_unmask (s : Hw) : Hw :=
  { s with intc_ie := 2 ^ 0, trace := s.trace ++ [Event.intc_unmask (2 ^ 0)] }

/-- The function `mic_privacy_enable_fw_managed_irq`; the handler pointer `fn`
is a number. -/
def mic_privacy_enable_fw_managed_irq (P : Platform) (enable_irq : Bool) (fn : Nat) (s : Hw) :
    Hw :=
  let r := sys_read16 P (CONFIG_ADSP_DFFWMICPVCCS_ADDRESS P) s
  let full :=
    if enable_irq then setField P.pvccs.mdstschgie 1 1 r.1
    else setField P.pvccs.mdstschgie 1 0 r.1
  let s1 := sys_write16 P full (CONFIG_ADSP_DFFWMICPVCCS_ADDRESS P) r.2
  if enable_irq && !irq_is_enabled P.irqn s1 then
    ace_mic_priv_intc_unmask (irq_enable P.irqn (irq_connect_dynamic P.irqn fn s1))
  else s1

/-- The function `mic_privacy_clear_fw_managed_irq`. -/
def mic_privacy_clear_fw_managed_irq (P : Platform) (s : Hw) : Hw :=
  let r := sys_read16 P (CONFIG_ADSP_DFFWMICPVCCS_ADDRESS P) s
  let full := setField P.pvccs.mdstschg 1 1 r.1
  sys_write16 P full (CONFIG_ADSP_DFFWMICPVCCS_ADDRESS P) r.2

/-- The function `intel_adsp_mic_priv_init`. -/
def intel_adsp_mic_priv_init (_dev : device) : Int := 0

/-! ## Register behaviour and a sample platform -/

/-- A register that stores exactly the 16 bits written. -/
def store_write16_effect (_old data : Nat) : Nat := data % 2 ^ 16

/-- Modelled from the spec: the hardware is outside the sources. Per the spec's
data model the status-change-pending bit is write-1-to-clear, the
hardware-reported status bit is read-only, and the other bits store what is
written. -/
def w1c_write16_effect (L : DFFWMICPVCCS) (old data : Nat) : Nat :=
  let pending := if getField L.mdstschg 1 data = 1 then 0 else getField L.mdstschg 1 old
  setField L.mdsts 1 (getField L.mdsts 1 old) (setField L.mdstschg 1 pending (data % 2 ^ 16))

/-- Modelled from the spec: a layout of `union DFFWMICPVCCS` with the three
software-writable bits at 0, 1, 2, the pending bit at 8 and the hardware status
at 9; the bit positions themselves are in the missing register header. -/
def sample_pvccs : DFFWMICPVCCS :=
  { mdstschgie := 0, fmmd := 1, fmdsts := 2, mdstschg := 8, mdsts := 9 }

/-- Modelled from the spec: a layout of `union DFMICPVCP` with `ddze` at bits
0..1, `ddzpl` at bit 2, `ddzls` at bits 8..15 and `ddzwt` at bits 16..31; the
bit positions themselves are in the missing register header. -/
def sample_pvcp : DFMICPVCP :=
  { ddze := 0, ddzpl := 2, ddzwt := 16, ddzwt_width := 16, ddzls := 8, ddzls_width := 8 }

/-- A platform with the sample layouts and write-1-to-clear hardware. -/
def sample_platform : Platform :=
  { reg_addr := 0x10000, irqn := 5, pvcp := sample_pvcp, pvccs := sample_pvccs,
    write16_effect := w1c_write16_effect sample_pvccs }

/-- A platform with the sample layouts whose register stores what is written. -/
def sample_store_platform : Platform :=
  { reg_addr := 0x10000, irqn := 5, pvcp := sample_pvcp, pvccs := sample_pvccs,
    write16_effect := store_write16_effect }

/-- The state after reset with the given register contents: line disabled, no
handler bound, controller masked, empty trace. -/
def Hw.reset (pvcp pvccs : Nat) : Hw :=
  { dfmicpvcp := pvcp, dffwmicpvccs := pvccs, irq_enabled := false, isr := none,
    intc_ie := 0, trace := [] }

/-- Bit `p` of the control/status register is software-writable on platform
`P`: after a 16-bit write it holds the bit that was written. -/
def Platform.Writable (P : Platform) (p : Nat) : Prop :=
  ∀ old data, data < 2 ^ 16 → (P.write16_effect old data).testBit p = data.testBit p

/-- The value a 16-bit read of the control/status register returns in state `s`. -/
def Hw.pvccs_read (s : Hw) : Nat := s.dffwmicpvccs % 2 ^ 16

/-! ## Definitions for the policy fields, the privacy mask and call sequences -/

/-- The four members of `union DFMICPVCP` lie inside the 32-bit `full` and are
pairwise disjoint. -/
def DFMICPVCP.WellFormed (L : DFMICPVCP) : Prop :=
  (L.ddze + 2 ≤ 32 ∧ L.ddzpl + 1 ≤ 32 ∧ L.ddzwt + L.ddzwt_width ≤ 32 ∧
      L.ddzls + L.ddzls_width ≤ 32) ∧
    (L.ddze + 2 ≤ L.ddzpl ∨ L.ddzpl + 1 ≤ L.ddze) ∧
    (L.ddze + 2 ≤ L.ddzwt ∨ L.ddzwt + L.ddzwt_width ≤ L.ddze) ∧
    (L.ddze + 2 ≤ L.ddzls ∨ L.ddzls + L.ddzls_width ≤ L.ddze) ∧
    (L.ddzpl + 1 ≤ L.ddzwt ∨ L.ddzwt + L.ddzwt_width ≤ L.ddzpl) ∧
    (L.ddzpl + 1 ≤ L.ddzls ∨ L.ddzls + L.ddzls_width ≤ L.ddzpl) ∧
    (L.ddzwt + L.ddzwt_width ≤ L.ddzls ∨ L.ddzls + L.ddzls_width ≤ L.ddzwt)

instance (L : DFMICPVCP) : Decidable L.WellFormed := by
  unfold DFMICPVCP.WellFormed; infer_instance

/-- The policy register value whose members hold the given values and whose
other bits are 0. -/
def DFMICPVCP.encode (L : DFMICPVCP) (ddze ddzpl ddzwt ddzls : Nat) : Nat :=
  setField L.ddze 2 ddze (setField L.ddzpl 1 ddzpl
    (setField L.ddzwt L.ddzwt_width ddzwt (setField L.ddzls L.ddzls_width ddzls 0)))

/-- The `union privacy_mask` of the header: a 32-bit `value` overlaid by the
bit-fields `sndw:7` and `dmic:1`. -/
structure privacy_mask where
  value : Nat
  deriving DecidableEq, Repr

/-- The member `sndw` of `union privacy_mask`: the first bit-field declared, 7
bits from bit 0 (bit-fields are allocated from the least significant bit in
declaration order, as on the little-endian target). -/
def privacy_mask.sndw (m : privacy_mask) : Nat := getField 0 7 (m.value % 2 ^ 32)

/-- The member `dmic` of `union privacy_mask`: the second bit-field declared, 1
bit following the 7 bits of `sndw`. -/
def privacy_mask.dmic (m : privacy_mask) : Nat := getField 7 1 (m.value % 2 ^ 32)

/-- A call through `struct mic_privacy_api_funcs`, one constructor per member,
with the arguments of the call. -/
inductive mic_privacy_api_funcs where
  | enable_fw_managed_irq (enable_irq : Bool) (fn : Nat)
  | clear_fw_managed_irq
  | get_policy
  | get_privacy_policy_register_raw_value
  | get_dma_data_zeroing_wait_time
  | get_dma_data_zeroing_link_select
  | get_fw_managed_mic_disable_status
  | set_fw_managed_mode (is_fw_managed_enabled : Bool)
  | set_fw_mic_disable_status (fw_mic_disable_status : Bool)
  | get_fw_mic_disable_status
  deriving DecidableEq, Repr

/-- The table `mic_privacy_ops`: the driver function behind each member; the
state after the call (a getter's return value is dropped). -/
def mic_privacy_ops (P : Platform) : mic_privacy_api_funcs → Hw → Hw
  | .enable_fw_managed_irq enable_irq fn, s => mic_privacy_enable_fw_managed_irq P enable_irq fn s
  | .clear_fw_managed_irq, s => mic_privacy_clear_fw_managed_irq P s
  | .get_policy, s => (mic_privacy_get_policy P s).2
  | .get_privacy_policy_register_raw_value, s =>
      (mic_privacy_get_privacy_policy_register_raw_value P s).2
  | .get_dma_data_zeroing_wait_time, s => (mic_privacy_get_dma_data_zeroing_wait_time P s).2
  | .get_dma_data_zeroing_link_select, s => (mic_privacy_get_dma_data_zeroing_link_select P s).2
  | .get_fw_managed_mic_disable_status, s =>
      (mic_privacy_get_fw_managed_mic_disable_status P s).2
  | .set_fw_managed_mode b, s => mic_privacy_set_fw_managed_mode P b s
  | .set_fw_mic_disable_status b, s => mic_privacy_set_fw_mic_disable_status P b s
  | .get_fw_mic_disable_status, s => (mic_privacy_get_fw_mic_disable_status P s).2

/-- A finite sequence of calls through `mic_privacy_ops`, first call first. -/
def run_calls (P : Platform) (calls : List mic_privacy_api_funcs) (s : Hw) : Hw :=
  calls.foldl (fun st c => mic_privacy_ops P c st) s

/-- A finite sequence of calls `mic_privacy_enable_fw_managed_irq(true, h)`, one
per handler of the list, first call first. -/
def enable_calls (P : Platform) (handlers : List Nat) (s : Hw) : Hw :=
  handlers.foldl (fun st h => mic_privacy_enable_fw_managed_irq P true h st) s

/-- The event is a handler binding. -/
def Event.binds : Event → Bool
  | .irq_connect_dynamic _ _ => true
  | _ => false

/-- The event is a register write. -/
def Event.writes : Event → Bool
  | .write16 _ _ => true
  | _ => false

/-! ## Bit-level lemmas -/

theorem testBit_getField (off width full j : Nat) :
    (getField off width full).testBit j = (decide (j < width) && full.testBit (off + j)) := by
  simp [getField]

theorem getField_lt (off width full : Nat) : getField off width full < 2 ^ width := by
  unfold getField
  exact Nat.mod_lt _ (by positivity)

theorem testBit_setField (off width x full j : Nat) :
    (setField off width x full).testBit j =
      if off ≤ j ∧ j < off + width then x.testBit (j - off) else full.testBit j := by
  unfold setField
  simp only [Nat.testBit_or, Nat.testBit_xor, Nat.testBit_and, Nat.testBit_shiftLeft,
    Nat.testBit_two_pow_sub_one, Nat.testBit_mod_two_pow]
  by_cases h1 : off ≤ j
  · by_cases h2 : j < off + width
    · have h3 : j - off < width := by omega
      cases hb : full.testBit j <;> simp [h1, h2, h3, hb]
    · have h3 : ¬ j - off < width := by omega
      cases hb : full.testBit j <;> simp [h1, h2, h3, hb]
  · cases hb : full.testBit j <;> simp [h1, hb]

/-- A one-bit field assignment leaves every other bit as it was. -/
theorem testBit_setField_one_of_ne (p x full j : Nat) (h : j ≠ p) :
    (setField p 1 x full).testBit j = full.testBit j := by
  rw [testBit_setField]
  have : ¬ (p ≤ j ∧ j < p + 1) := by omega
  simp [this]

/-- A one-bit field assignment stores bit 0 of the assigned value. -/
theorem testBit_setField_one_self (p x full : Nat) :
    (setField p 1 x full).testBit p = x.testBit 0 := by
  rw [testBit_setField]
  simp

/-- A field assignment inside a 16-bit word stays inside it. -/
theorem setField_one_lt (p x full : Nat) (hp : p < 16) (hfull : full < 2 ^ 16) :
    setField p 1 x full < 2 ^ 16 := by
  apply Nat.lt_pow_two_of_testBit
  intro i hi
  rw [testBit_setField_one_of_ne _ _ _ _ (by omega)]
  exact Nat.testBit_lt_two_pow (lt_of_lt_of_le hfull (Nat.pow_le_pow_right (by norm_num) hi))

/-- Flipping a bit outside a field does not change what the field reads. -/
theorem getField_xor_two_pow (off width full i : Nat) (h : i < off ∨ off + width ≤ i) :
    getField off width (full ^^^ 2 ^ i) = getField off width full := by
  apply Nat.eq_of_testBit_eq
  intro j
  rw [testBit_getField, testBit_getField, Nat.testBit_xor, Nat.testBit_two_pow]
  by_cases hj : j < width
  · have : i ≠ off + j := by omega
    simp [this]
  · simp [hj]

theorem getField_mod_two_pow (off width n full : Nat) (h : off + width ≤ n) :
    getField off width (full % 2 ^ n) = getField off width full := by
  apply Nat.eq_of_testBit_eq
  intro j
  rw [testBit_getField, testBit_getField, Nat.testBit_mod_two_pow]
  by_cases hj : j < width
  · have : off + j < n := by omega
    simp [this]
  · simp [hj]

/-- Reading back the field just assigned gives the assigned value, truncated. -/
theorem getField_setField_self (off width x full : Nat) :
    getField off width (setField off width x full) = x % 2 ^ width := by
  apply Nat.eq_of_testBit_eq
  intro j
  rw [testBit_getField, testBit_setField, Nat.testBit_mod_two_pow]
  by_cases hj : j < width
  · have h1 : off ≤ off + j ∧ off + j < off + width := by omega
    simp [hj, h1]
  · simp [hj]

/-- Assigning one field does not change what a disjoint field reads. -/
theorem getField_setField_of_disjoint (off width off2 width2 x full : Nat)
    (h : off2 + width2 ≤ off ∨ off + width ≤ off2) :
    getField off2 width2 (setField off width x full) = getField off2 width2 full := by
  apply Nat.eq_of_testBit_eq
  intro j
  rw [testBit_getField, testBit_getField, testBit_setField]
  by_cases hj : j < width2
  · have h1 : ¬ (off ≤ off2 + j ∧ off2 + j < off + width) := by omega
    simp [h1]
  · simp [hj]

theorem setField_lt (off width x full n : Nat) (h : off + width ≤ n) (hfull : full < 2 ^ n) :
    setField off width x full < 2 ^ n := by
  apply Nat.lt_pow_two_of_testBit
  intro i hi
  rw [testBit_setField]
  have h1 : ¬ (off ≤ i ∧ i < off + width) := by omega
  simp only [h1, if_false]
  exact Nat.testBit_lt_two_pow (lt_of_lt_of_le hfull (Nat.pow_le_pow_right (by norm_num) hi))

/-- Bits of the 16-bit value written after a one-bit field assignment. -/
theorem testBit_written (p x v i : Nat) (hv : v < 2 ^ 16) :
    (setField p 1 x v % 2 ^ 16).testBit i =
      if i = p then (decide (p < 16) && x.testBit 0) else v.testBit i := by
  rw [Nat.testBit_mod_two_pow]
  by_cases h : i = p
  · subst h
    simp [testBit_setField_one_self]
  · rw [testBit_setField_one_of_ne _ _ _ _ h]
    simp only [h, if_false]
    by_cases h16 : i < 16
    · simp [h16]
    · simp only [h16, decide_False, Bool.false_and]
      exact (Nat.testBit_lt_two_pow
        (lt_of_lt_of_le hv (Nat.pow_le_pow_right (by norm_num) (by omega)))).symm

theorem pvccs_read_lt (s : Hw) : s.pvccs_read < 2 ^ 16 :=
  Nat.mod_lt _ (by norm_num)

/-! ## Register access -/

theorem sys_read16_pvccs (P : Platform) (s : Hw) :
    sys_read16 P (CONFIG_ADSP_DFFWMICPVCCS_ADDRESS P) s =
      (s.pvccs_read,
        { s with trace := s.trace ++ [Event.read16 (CONFIG_ADSP_DFFWMICPVCCS_ADDRESS P)] }) := by
  simp [sys_read16, Hw.pvccs_read]

/-- A read of the control/status register followed by a write of `data`. -/
theorem read_then_write16 (P : Platform) (data : Nat) (s : Hw) :
    sys_write16 P data (CONFIG_ADSP_DFFWMICPVCCS_ADDRESS P)
        (sys_read16 P (CONFIG_ADSP_DFFWMICPVCCS_ADDRESS P) s).2 =
      { s with
        dffwmicpvccs := P.write16_effect s.dffwmicpvccs (data % 2 ^ 16)
        trace := s.trace ++ [Event.read16 (CONFIG_ADSP_DFFWMICPVCCS_ADDRESS P),
          Event.write16 (data % 2 ^ 16) (CONFIG_ADSP_DFFWMICPVCCS_ADDRESS P)] } := by
  simp [sys_write16, sys_read16]

theorem set_fw_managed_mode_eq (P : Platform) (b : Bool) (s : Hw) :
    mic_privacy_set_fw_managed_mode P b s =
      { s with
        dffwmicpvccs := P.write16_effect s.dffwmicpvccs
          (setField P.pvccs.fmmd 1 (if b then 1 else 0) s.pvccs_read % 2 ^ 16)
        trace := s.trace ++ [Event.read16 (CONFIG_ADSP_DFFWMICPVCCS_ADDRESS P),
          Event.write16 (setField P.pvccs.fmmd 1 (if b then 1 else 0) s.pvccs_read % 2 ^ 16)
            (CONFIG_ADSP_DFFWMICPVCCS_ADDRESS P)] } := by
  unfold mic_privacy_set_fw_managed_mode
  simp only [read_then_write16]
  cases b <;> simp [sys_read16, Hw.pvccs_read]

theorem set_fw_mic_disable_status_eq (P : Platform) (b : Bool) (s : Hw) :
    mic_privacy_set_fw_mic_disable_status P b s =
      { s with
        dffwmicpvccs := P.write16_effect s.dffwmicpvccs
          (setField P.pvccs.fmdsts 1 (if b then 1 else 0) s.pvccs_read % 2 ^ 16)
        trace := s.trace ++ [Event.read16 (CONFIG_ADSP_DFFWMICPVCCS_ADDRESS P),
          Event.write16 (setField P.pvccs.fmdsts 1 (if b then 1 else 0) s.pvccs_read % 2 ^ 16)
            (CONFIG_ADSP_DFFWMICPVCCS_ADDRESS P)] } := by
  unfold mic_privacy_set_fw_mic_disable_status
  simp only [read_then_write16]
  cases b <;> simp [sys_read16, Hw.pvccs_read]

theorem clear_fw_managed_irq_eq (P : Platform) (s : Hw) :
    mic_privacy_clear_fw_managed_irq P s =
      { s with
        dffwmicpvccs := P.write16_effect s.dffwmicpvccs
          (setField P.pvccs.mdstschg 1 1 s.pvccs_read % 2 ^ 16)
        trace := s.trace ++ [Event.read16 (CONFIG_ADSP_DFFWMICPVCCS_ADDRESS P),
          Event.write16 (setField P.pvccs.mdstschg 1 1 s.pvccs_read % 2 ^ 16)
            (CONFIG_ADSP_DFFWMICPVCCS_ADDRESS P)] } := by
  unfold mic_privacy_clear_fw_managed_irq
  simp only [read_then_write16]
  simp [sys_read16, Hw.pvccs_read]

theorem enable_fw_managed_irq_eq (P : Platform) (b : Bool) (fn : Nat) (s : Hw) :
    mic_privacy_enable_fw_managed_irq P b fn s =
      { dfmicpvcp := s.dfmicpvcp
        dffwmicpvccs := P.write16_effect s.dffwmicpvccs
          (setField P.pvccs.mdstschgie 1 (if b then 1 else 0) s.pvccs_read % 2 ^ 16)
        irq_enabled := if b && !s.irq_enabled then true else s.irq_enabled
        isr := if b && !s.irq_enabled then some fn else s.isr
        intc_ie := if b && !s.irq_enabled then 1 else s.intc_ie
        trace := s.trace ++ [Event.read16 (CONFIG_ADSP_DFFWMICPVCCS_ADDRESS P),
          Event.write16 (setField P.pvccs.mdstschgie 1 (if b then 1 else 0) s.pvccs_read % 2 ^ 16)
            (CONFIG_ADSP_DFFWMICPVCCS_ADDRESS P)] ++
          if b && !s.irq_enabled then
            [Event.irq_connect_dynamic P.irqn fn, Event.irq_enable P.irqn, Event.intc_unmask 1]
          else [] } := by
  unfold mic_privacy_enable_fw_managed_irq
  simp only [read_then_write16]
  cases b <;> cases h : s.irq_enabled <;>
    simp [sys_read16, Hw.pvccs_read, irq_is_enabled, irq_connect_dynamic, irq_enable,
      ace_mic_priv_intc_unmask, h]

/-- What well-formedness of the control/status layout says, spelled out. -/
theorem DFFWMICPVCCS.WellFormed.facts {L : DFFWMICPVCCS} (h : L.WellFormed) :
    (L.mdstschgie ≠ L.fmmd ∧ L.mdstschgie ≠ L.fmdsts ∧ L.mdstschgie ≠ L.mdstschg ∧
        L.mdstschgie ≠ L.mdsts ∧ L.fmmd ≠ L.fmdsts ∧ L.fmmd ≠ L.mdstschg ∧ L.fmmd ≠ L.mdsts ∧
        L.fmdsts ≠ L.mdstschg ∧ L.fmdsts ≠ L.mdsts ∧ L.mdstschg ≠ L.mdsts) ∧
      L.mdstschgie < 16 ∧ L.fmmd < 16 ∧ L.fmdsts < 16 ∧ L.mdstschg < 16 ∧ L.mdsts < 16 := by
  simp only [DFFWMICPVCCS.WellFormed, List.nodup_cons, List.mem_cons, List.mem_singleton,
    List.not_mem_nil, or_false, not_or, List.nodup_nil, and_true, forall_eq_or_imp,
    forall_eq, not_false_eq_true] at h
  omega

/-! ## Register behaviour -/

/-- A one-bit field reads 1 or 0 according to its bit. -/
theorem getField_one (p v : Nat) : getField p 1 v = if v.testBit p then 1 else 0 := by
  apply Nat.eq_of_testBit_eq
  intro j
  rw [testBit_getField]
  by_cases hj : j < 1
  · have hj0 : j = 0 := by omega
    subst hj0
    cases h : v.testBit p <;> simp [h]
  · have hj1 : 1 ≤ j := by omega
    have h2 : (1 : Nat) < 2 ^ j := Nat.one_lt_two_pow (by omega)
    cases h : v.testBit p <;> simp [hj, Nat.testBit_lt_two_pow h2]

/-- On a register that stores what is written every bit is software-writable. -/
theorem store_writable (P : Platform) (h : P.write16_effect = store_write16_effect) (p : Nat) :
    P.Writable p := by
  intro old data hd
  rw [h, store_write16_effect, Nat.mod_eq_of_lt hd]

/-- Bits of the control/status register after a write, on write-1-to-clear
hardware. -/
theorem testBit_w1c_write16_effect (L : DFFWMICPVCCS) (hL : L.WellFormed) (old data i : Nat)
    (hd : data < 2 ^ 16) :
    (w1c_write16_effect L old data).testBit i =
      if i = L.mdsts then old.testBit L.mdsts
      else if i = L.mdstschg then (old.testBit L.mdstschg && !data.testBit L.mdstschg)
      else data.testBit i := by
  obtain ⟨hne, -⟩ := hL.facts
  unfold w1c_write16_effect
  simp only [Nat.mod_eq_of_lt hd]
  by_cases h1 : i = L.mdsts
  · subst h1
    rw [testBit_setField_one_self, if_pos rfl, getField_one]
    cases old.testBit L.mdsts <;> simp
  · rw [testBit_setField_one_of_ne _ _ _ _ h1, if_neg h1]
    by_cases h2 : i = L.mdstschg
    · subst h2
      rw [testBit_setField_one_self, if_pos rfl, getField_one, getField_one]
      cases data.testBit L.mdstschg <;> cases old.testBit L.mdstschg <;> simp
    · rw [testBit_setField_one_of_ne _ _ _ _ h2, if_neg h2]

/-- On write-1-to-clear hardware every bit other than the pending bit and the
hardware status bit is software-writable. -/
theorem w1c_writable (P : Platform) (hL : P.pvccs.WellFormed)
    (h : P.write16_effect = w1c_write16_effect P.pvccs) (p : Nat)
    (h1 : p ≠ P.pvccs.mdsts) (h2 : p ≠ P.pvccs.mdstschg) : P.Writable p := by
  intro old data hd
  rw [h, testBit_w1c_write16_effect _ hL _ _ _ hd, if_neg h1, if_neg h2]

/-- The write-1-to-clear register stays a 16-bit value. -/
theorem w1c_write16_effect_lt (L : DFFWMICPVCCS) (hL : L.WellFormed) (old data : Nat) :
    w1c_write16_effect L old data < 2 ^ 16 := by
  obtain ⟨-, -, -, -, h4, h5⟩ := hL.facts
  unfold w1c_write16_effect
  exact setField_one_lt _ _ _ h5 (setField_one_lt _ _ _ h4 (Nat.mod_lt _ (by norm_num)))

/-! ## Policy decoding -/

/-- The policy register value the driver reads in state `s`. -/
theorem sys_read32_policy (P : Platform) (s : Hw) :
    (sys_read32 P (CONFIG_ADSP_DFMICPVCP_ADDRESS P) s).1 = s.dfmicpvcp % 2 ^ 32 := by
  simp [sys_read32]

theorem get_policy_eq_table (P : Platform) (s : Hw) :
    (mic_privacy_get_policy P s).1 =
      spec_policy_table (getField P.pvcp.ddze 2 (s.dfmicpvcp % 2 ^ 32))
        (getField P.pvcp.ddzpl 1 (s.dfmicpvcp % 2 ^ 32)) := by
  have he := getField_lt P.pvcp.ddze 2 (s.dfmicpvcp % 2 ^ 32)
  have hp := getField_lt P.pvcp.ddzpl 1 (s.dfmicpvcp % 2 ^ 32)
  unfold mic_privacy_get_policy
  simp only [sys_read32_policy]
  generalize getField P.pvcp.ddze 2 (s.dfmicpvcp % 2 ^ 32) = e at he ⊢
  generalize getField P.pvcp.ddzpl 1 (s.dfmicpvcp % 2 ^ 32) = p at hp ⊢
  have he4 : e < 4 := by simpa using he
  have hp2 : p < 2 := by simpa using hp
  interval_cases e <;> interval_cases p <;> simp [spec_policy_table]

/-- C1: for every content of the 32-bit policy control register,
`mic_privacy_get_policy` returns the entry of the spec's table for the register's
(enable, polarity) fields: HW_MANAGED for (2,1), FW_MANAGED for (2,0),
FORCE_MIC_DISABLED for enable 3 with either polarity, DISABLED otherwise. The
fields range over 0..3 and 0..1, each of the 8 combinations occurs for some
register value, and flipping any bit outside the two fields leaves the result
unchanged. -/
theorem mic_privacy_get_policy_table (P : Platform) (hL : P.pvcp.PolicyFieldsOk) (s : Hw) :
    (mic_privacy_get_policy P s).1 =
        spec_policy_table (getField P.pvcp.ddze 2 (s.dfmicpvcp % 2 ^ 32))
          (getField P.pvcp.ddzpl 1 (s.dfmicpvcp % 2 ^ 32)) ∧
      (getField P.pvcp.ddze 2 (s.dfmicpvcp % 2 ^ 32) = 2 ∧
          getField P.pvcp.ddzpl 1 (s.dfmicpvcp % 2 ^ 32) = 1 →
        (mic_privacy_get_policy P s).1 = mic_privacy_policy.HW_MANAGED) ∧
      (getField P.pvcp.ddze 2 (s.dfmicpvcp % 2 ^ 32) = 2 ∧
          getField P.pvcp.ddzpl 1 (s.dfmicpvcp % 2 ^ 32) = 0 →
        (mic_privacy_get_policy P s).1 = mic_privacy_policy.FW_MANAGED) ∧
      (getField P.pvcp.ddze 2 (s.dfmicpvcp % 2 ^ 32) = 3 →
        (mic_privacy_get_policy P s).1 = mic_privacy_policy.FORCE_MIC_DISABLED) ∧
      (getField P.pvcp.ddze 2 (s.dfmicpvcp % 2 ^ 32) ≠ 2 ∧
          getField P.pvcp.ddze 2 (s.dfmicpvcp % 2 ^ 32) ≠ 3 →
        (mic_privacy_get_policy P s).1 = mic_privacy_policy.DISABLED) ∧
      getField P.pvcp.ddze 2 (s.dfmicpvcp % 2 ^ 32) < 4 ∧
      getField P.pvcp.ddzpl 1 (s.dfmicpvcp % 2 ^ 32) < 2 ∧
      (∀ e p, e < 4 → p < 2 → ∃ raw, raw < 2 ^ 32 ∧
        getField P.pvcp.ddze 2 raw = e ∧ getField P.pvcp.ddzpl 1 raw = p) ∧
      (∀ i, (i < P.pvcp.ddze ∨ P.pvcp.ddze + 2 ≤ i) → i ≠ P.pvcp.ddzpl →
        (mic_privacy_get_policy P { s with dfmicpvcp := s.dfmicpvcp ^^^ 2 ^ i }).1 =
          (mic_privacy_get_policy P s).1) := by
  obtain ⟨h1, h2, h3⟩ := hL
  have he := getField_lt P.pvcp.ddze 2 (s.dfmicpvcp % 2 ^ 32)
  have hp := getField_lt P.pvcp.ddzpl 1 (s.dfmicpvcp % 2 ^ 32)
  have he4 : getField P.pvcp.ddze 2 (s.dfmicpvcp % 2 ^ 32) < 4 := by simpa using he
  have hp2 : getField P.pvcp.ddzpl 1 (s.dfmicpvcp % 2 ^ 32) < 2 := by simpa using hp
  refine ⟨get_policy_eq_table P s, ?_, ?_, ?_, ?_, he4, hp2, ?_, ?_⟩
  · rintro ⟨a, b⟩
    rw [get_policy_eq_table, a, b]; rfl
  · rintro ⟨a, b⟩
    rw [get_policy_eq_table, a, b]; rfl
  · intro a
    rw [get_policy_eq_table, a]
    generalize getField P.pvcp.ddzpl 1 (s.dfmicpvcp % 2 ^ 32) = p at hp2
    interval_cases p <;> rfl
  · rintro ⟨a, b⟩
    rw [get_policy_eq_table]
    generalize getField P.pvcp.ddze 2 (s.dfmicpvcp % 2 ^ 32) = e at he4 a b
    generalize getField P.pvcp.ddzpl 1 (s.dfmicpvcp % 2 ^ 32) = p at hp2
    interval_cases e <;> interval_cases p <;> first | rfl | omega
  · intro e p hlt4 hlt2
    refine ⟨setField P.pvcp.ddze 2 e (setField P.pvcp.ddzpl 1 p 0), ?_, ?_, ?_⟩
    · exact setField_lt _ _ _ _ 32 h1 (setField_lt _ _ _ _ 32 (by omega) (by norm_num))
    · rw [getField_setField_self]
      exact Nat.mod_eq_of_lt (by simpa using hlt4)
    · rw [getField_setField_of_disjoint _ _ _ _ _ _ (by omega), getField_setField_self]
      exact Nat.mod_eq_of_lt (by simpa using hlt2)
  · intro i hi hne
    rw [get_policy_eq_table, get_policy_eq_table]
    simp only []
    rw [getField_mod_two_pow _ _ _ _ h1, getField_mod_two_pow _ _ _ _ (by omega : P.pvcp.ddzpl + 1 ≤ 32),
      getField_mod_two_pow _ _ _ _ h1, getField_mod_two_pow _ _ _ _ (by omega : P.pvcp.ddzpl + 1 ≤ 32),
      getField_xor_two_pow _ _ _ _ hi, getField_xor_two_pow _ _ _ _ (by omega)]

/-- C1 at the sample layout: the register value 0xABCD0006 has enable 2 and
polarity 1 and decodes to HW_MANAGED. -/
theorem mic_privacy_get_policy_table_witness :
    sample_platform.pvcp.PolicyFieldsOk ∧
      (mic_privacy_get_policy sample_platform (Hw.reset 0xABCD0006 0)).1 =
        mic_privacy_policy.HW_MANAGED :=
  ⟨by decide,
    (mic_privacy_get_policy_table sample_platform (by decide) (Hw.reset 0xABCD0006 0)).2.1
      (by decide)⟩

/-! ## Field setters of the control/status register -/

/-- C2 as stated fails: with the pending bit (bit 8 of the sample layout) read
as 1, each of the three setters writes a value that has 1 in that position. -/
theorem setters_write_pending_one :
    (mic_privacy_set_fw_managed_mode sample_platform true (Hw.reset 0 0x100)).trace =
        [Event.read16 0x10006, Event.write16 0x102 0x10006] ∧
      (mic_privacy_set_fw_mic_disable_status sample_platform true (Hw.reset 0 0x100)).trace =
        [Event.read16 0x10006, Event.write16 0x104 0x10006] ∧
      (mic_privacy_enable_fw_managed_irq sample_platform false 7 (Hw.reset 0 0x100)).trace =
        [Event.read16 0x10006, Event.write16 0x100 0x10006] ∧
      Nat.testBit 0x102 sample_platform.pvccs.mdstschg = true ∧
      Nat.testBit 0x104 sample_platform.pvccs.mdstschg = true ∧
      Nat.testBit 0x100 sample_platform.pvccs.mdstschg = true := by
  decide

/-- C2 amended: each setter that is not the acknowledge operation performs one
read and one write of the control/status register, and the value it writes
carries the status-change-pending bit exactly as it was read (it is not masked
to 0); the enable operation issues no further register write. -/
theorem setters_write_pending_as_read (P : Platform) (hL : P.pvccs.WellFormed) (s : Hw)
    (b : Bool) (fn : Nat) :
    (∃ w, (mic_privacy_set_fw_managed_mode P b s).trace =
          s.trace ++ [Event.read16 (P.reg_addr + 6), Event.write16 w (P.reg_addr + 6)] ∧
        w.testBit P.pvccs.mdstschg = s.pvccs_read.testBit P.pvccs.mdstschg) ∧
      (∃ w, (mic_privacy_set_fw_mic_disable_status P b s).trace =
          s.trace ++ [Event.read16 (P.reg_addr + 6), Event.write16 w (P.reg_addr + 6)] ∧
        w.testBit P.pvccs.mdstschg = s.pvccs_read.testBit P.pvccs.mdstschg) ∧
      (∃ w rest, (mic_privacy_enable_fw_managed_irq P b fn s).trace =
          s.trace ++ [Event.read16 (P.reg_addr + 6), Event.write16 w (P.reg_addr + 6)] ++ rest ∧
        (∀ d a, Event.write16 d a ∉ rest) ∧
        w.testBit P.pvccs.mdstschg = s.pvccs_read.testBit P.pvccs.mdstschg) := by
  obtain ⟨hne, -⟩ := hL.facts
  refine ⟨⟨_, by rw [set_fw_managed_mode_eq]; rfl, ?_⟩,
    ⟨_, by rw [set_fw_mic_disable_status_eq]; rfl, ?_⟩,
    ⟨_, _, by rw [enable_fw_managed_irq_eq]; rfl, ?_, ?_⟩⟩
  · rw [testBit_written _ _ _ _ (pvccs_read_lt s), if_neg (by omega)]
  · rw [testBit_written _ _ _ _ (pvccs_read_lt s), if_neg (by omega)]
  · intro d a
    split <;> simp
  · rw [testBit_written _ _ _ _ (pvccs_read_lt s), if_neg (by omega)]

/-- C2 amended, at the sample layout. -/
theorem setters_write_pending_as_read_witness :
    sample_platform.pvccs.WellFormed ∧
      ∃ w, (mic_privacy_set_fw_managed_mode sample_platform true (Hw.reset 0 0x100)).trace =
          (Hw.reset 0 0x100).trace ++ [Event.read16 (sample_platform.reg_addr + 6),
            Event.write16 w (sample_platform.reg_addr + 6)] ∧
        w.testBit sample_platform.pvccs.mdstschg =
          (Hw.reset 0 0x100).pvccs_read.testBit sample_platform.pvccs.mdstschg :=
  ⟨by decide,
    (setters_write_pending_as_read sample_platform (by decide) (Hw.reset 0 0x100) true 0).1⟩

/-- C3: `mic_privacy_set_fw_managed_mode` writes the value it read with the
mode-enable bit set to the argument and every other bit unchanged; when the
firmware-asserted-disable bit is software-writable,
`mic_privacy_get_fw_mic_disable_status` returns the same value after
`mic_privacy_set_fw_managed_mode(true)` as before. -/
theorem set_fw_managed_mode_frame (P : Platform) (hL : P.pvccs.WellFormed)
    (hw : P.Writable P.pvccs.fmdsts) (s : Hw) (b : Bool) :
    (∃ w, (mic_privacy_set_fw_managed_mode P b s).trace =
          s.trace ++ [Event.read16 (P.reg_addr + 6), Event.write16 w (P.reg_addr + 6)] ∧
        w.testBit P.pvccs.fmmd = b ∧
        ∀ i, i ≠ P.pvccs.fmmd → w.testBit i = s.pvccs_read.testBit i) ∧
      (mic_privacy_get_fw_mic_disable_status P (mic_privacy_set_fw_managed_mode P true s)).1 =
        (mic_privacy_get_fw_mic_disable_status P s).1 := by
  obtain ⟨hne, -, hlt, -⟩ := hL.facts
  refine ⟨⟨_, by rw [set_fw_managed_mode_eq]; rfl, ?_, ?_⟩, ?_⟩
  · rw [testBit_written _ _ _ _ (pvccs_read_lt s), if_pos rfl]
    cases b <;> simp [hlt]
  · intro i hi
    rw [testBit_written _ _ _ _ (pvccs_read_lt s), if_neg hi]
  · rw [set_fw_managed_mode_eq]
    simp only [mic_privacy_get_fw_mic_disable_status, sys_read16_pvccs, Hw.pvccs_read]
    apply Nat.eq_of_testBit_eq
    intro j
    rw [testBit_getField, testBit_getField]
    by_cases hj : j < 1
    · have hj0 : j = 0 := by omega
      subst hj0
      simp only [Nat.add_zero, Nat.testBit_mod_two_pow]
      rw [hw _ _ (Nat.mod_lt _ (by norm_num)),
        testBit_written _ _ _ _ (Nat.mod_lt _ (by norm_num)), if_neg (by omega),
        Nat.testBit_mod_two_pow]
      cases decide (P.pvccs.fmdsts < 16) <;> rfl
    · simp [hj]

/-- C3 at the sample platform: the disable-status getter returns 1 before and
after `mic_privacy_set_fw_managed_mode(true)` on the register value 0x104. -/
theorem set_fw_managed_mode_frame_witness :
    sample_platform.pvccs.WellFormed ∧ sample_platform.Writable sample_platform.pvccs.fmdsts ∧
      (mic_privacy_get_fw_mic_disable_status sample_platform
          (mic_privacy_set_fw_managed_mode sample_platform true (Hw.reset 0 0x104))).1 =
        (mic_privacy_get_fw_mic_disable_status sample_platform (Hw.reset 0 0x104)).1 :=
  ⟨by decide, w1c_writable sample_platform (by decide) rfl _ (by decide) (by decide),
    (set_fw_managed_mode_frame sample_platform (by decide)
      (w1c_writable sample_platform (by decide) rfl _ (by decide) (by decide))
      (Hw.reset 0 0x104) true).2⟩

/-- C4 as stated fails on the spec's write-1-to-clear register: with the pending
bit read as 1 (register 0x100), `mic_privacy_set_fw_mic_disable_status(true)`
writes 0x104, the register becomes 0x004, and the pending field reads 0 after
the call although it read 1 before. -/
theorem set_fw_mic_disable_status_clears_pending :
    getField sample_platform.pvccs.mdstschg 1 (Hw.reset 0 0x100).pvccs_read = 1 ∧
      (mic_privacy_set_fw_mic_disable_status sample_platform true (Hw.reset 0 0x100)).trace =
        [Event.read16 0x10006, Event.write16 0x104 0x10006] ∧
      (mic_privacy_set_fw_mic_disable_status sample_platform true
        (Hw.reset 0 0x100)).dffwmicpvccs = 0x004 ∧
      getField sample_platform.pvccs.mdstschg 1
        (mic_privacy_set_fw_mic_disable_status sample_platform true
          (Hw.reset 0 0x100)).pvccs_read = 0 := by
  decide

/-- C4 amended: after `mic_privacy_set_fw_mic_disable_status(b)` the getter
returns `b` (1 or 0) and the mode-enable field reads as before; the pending bit
is written back as read, so it reads as before on a register where it is stored
as written, and reads 0 on write-1-to-clear hardware. -/
theorem set_fw_mic_disable_status_round_trip (P : Platform) (hL : P.pvccs.WellFormed)
    (hw1 : P.Writable P.pvccs.fmdsts) (hw2 : P.Writable P.pvccs.fmmd) (s : Hw) (b : Bool) :
    (mic_privacy_get_fw_mic_disable_status P
        (mic_privacy_set_fw_mic_disable_status P b s)).1 = (if b then 1 else 0) ∧
      getField P.pvccs.fmmd 1 (mic_privacy_set_fw_mic_disable_status P b s).pvccs_read =
        getField P.pvccs.fmmd 1 s.pvccs_read ∧
      (P.Writable P.pvccs.mdstschg →
        getField P.pvccs.mdstschg 1 (mic_privacy_set_fw_mic_disable_status P b s).pvccs_read =
          getField P.pvccs.mdstschg 1 s.pvccs_read) ∧
      (P.write16_effect = w1c_write16_effect P.pvccs →
        getField P.pvccs.mdstschg 1
          (mic_privacy_set_fw_mic_disable_status P b s).pvccs_read = 0) := by
  obtain ⟨hne, h1, h2, h3, h4, h5⟩ := hL.facts
  have hread : ∀ p, p < 16 → P.Writable p →
      (mic_privacy_set_fw_mic_disable_status P b s).pvccs_read.testBit p =
        (setField P.pvccs.fmdsts 1 (if b then 1 else 0) s.pvccs_read % 2 ^ 16).testBit p := by
    intro p hp hw
    rw [set_fw_mic_disable_status_eq]
    simp only [Hw.pvccs_read]
    rw [Nat.testBit_mod_two_pow, hw _ _ (Nat.mod_lt _ (by norm_num))]
    simp [hp]
  have hb1 : (mic_privacy_set_fw_mic_disable_status P b s).pvccs_read.testBit P.pvccs.fmdsts
      = b := by
    rw [hread _ h3 hw1, testBit_written _ _ _ _ (pvccs_read_lt s), if_pos rfl]
    cases b <;> simp [h3]
  have hb2 : (mic_privacy_set_fw_mic_disable_status P b s).pvccs_read.testBit P.pvccs.fmmd
      = s.pvccs_read.testBit P.pvccs.fmmd := by
    rw [hread _ h2 hw2, testBit_written _ _ _ _ (pvccs_read_lt s),
      if_neg (show ¬ P.pvccs.fmmd = P.pvccs.fmdsts by omega)]
  refine ⟨?_, ?_, ?_, ?_⟩
  · simp only [mic_privacy_get_fw_mic_disable_status, sys_read16_pvccs]
    rw [getField_one, hb1]
  · rw [getField_one, getField_one, hb2]
  · intro hw3
    have hb3 : (mic_privacy_set_fw_mic_disable_status P b s).pvccs_read.testBit
        P.pvccs.mdstschg = s.pvccs_read.testBit P.pvccs.mdstschg := by
      rw [hread _ h4 hw3, testBit_written _ _ _ _ (pvccs_read_lt s),
        if_neg (show ¬ P.pvccs.mdstschg = P.pvccs.fmdsts by omega)]
    rw [getField_one, getField_one, hb3]
  · intro hm
    have hb4 : (mic_privacy_set_fw_mic_disable_status P b s).pvccs_read.testBit
        P.pvccs.mdstschg = false := by
      rw [set_fw_mic_disable_status_eq]
      simp only [Hw.pvccs_read]
      rw [Nat.testBit_mod_two_pow, hm,
        testBit_w1c_write16_effect _ hL _ _ _ (Nat.mod_lt _ (by norm_num)),
        if_neg (show ¬ P.pvccs.mdstschg = P.pvccs.mdsts by omega),
        if_pos rfl, testBit_written _ _ _ _ (Nat.mod_lt _ (by norm_num)),
        if_neg (show ¬ P.pvccs.mdstschg = P.pvccs.fmdsts by omega),
        Nat.testBit_mod_two_pow]
      cases s.dffwmicpvccs.testBit P.pvccs.mdstschg <;> simp [h4]
    rw [getField_one, hb4]
    rfl

/-- C4 amended, at the sample platform with register value 0x102. -/
theorem set_fw_mic_disable_status_round_trip_witness :
    sample_platform.pvccs.WellFormed ∧ sample_platform.Writable sample_platform.pvccs.fmdsts ∧
      sample_platform.Writable sample_platform.pvccs.fmmd ∧
      (mic_privacy_get_fw_mic_disable_status sample_platform
        (mic_privacy_set_fw_mic_disable_status sample_platform true (Hw.reset 0 0x102))).1 = 1 :=
  ⟨by decide, w1c_writable sample_platform (by decide) rfl _ (by decide) (by decide),
    w1c_writable sample_platform (by decide) rfl _ (by decide) (by decide),
    (set_fw_mic_disable_status_round_trip sample_platform (by decide)
      (w1c_writable sample_platform (by decide) rfl _ (by decide) (by decide))
      (w1c_writable sample_platform (by decide) rfl _ (by decide) (by decide))
      (Hw.reset 0 0x102) true).1⟩

/-! ## Acknowledge -/

/-- C5: `mic_privacy_clear_fw_managed_irq` performs one read and one write of the
control/status register, and the value it writes is the value read with the
status-change-pending bit set to 1 and every other bit unchanged. -/
theorem clear_fw_managed_irq_writes (P : Platform) (hL : P.pvccs.WellFormed) (s : Hw) :
    ∃ w, (mic_privacy_clear_fw_managed_irq P s).trace =
        s.trace ++ [Event.read16 (P.reg_addr + 6), Event.write16 w (P.reg_addr + 6)] ∧
      w.testBit P.pvccs.mdstschg = true ∧
      ∀ i, i ≠ P.pvccs.mdstschg → w.testBit i = s.pvccs_read.testBit i := by
  obtain ⟨-, -, -, -, h4, -⟩ := hL.facts
  refine ⟨_, by rw [clear_fw_managed_irq_eq]; rfl, ?_, ?_⟩
  · rw [testBit_written _ _ _ _ (pvccs_read_lt s), if_pos rfl]
    simp [h4]
  · intro i hi
    rw [testBit_written _ _ _ _ (pvccs_read_lt s), if_neg hi]

/-- C5 at the sample platform: acknowledging on register value 0x007 writes a
value whose pending bit is 1. -/
theorem clear_fw_managed_irq_writes_witness :
    sample_platform.pvccs.WellFormed ∧
      ∃ w, (mic_privacy_clear_fw_managed_irq sample_platform (Hw.reset 0 0x007)).trace =
          (Hw.reset 0 0x007).trace ++ [Event.read16 (sample_platform.reg_addr + 6),
            Event.write16 w (sample_platform.reg_addr + 6)] ∧
        w.testBit sample_platform.pvccs.mdstschg = true ∧
        ∀ i, i ≠ sample_platform.pvccs.mdstschg →
          w.testBit i = (Hw.reset 0 0x007).pvccs_read.testBit i :=
  ⟨by decide, clear_fw_managed_irq_writes sample_platform (by decide) (Hw.reset 0 0x007)⟩

/-- C6: on write-1-to-clear hardware, when the pending bit is set, the
control/status register after `mic_privacy_clear_fw_managed_irq` differs from
the register before in exactly the pending bit position: pending reads 0, and
mode-enable, firmware-asserted-disable, interrupt-enable and hardware-status
read as before. -/
theorem clear_fw_managed_irq_clears_only_pending (P : Platform) (hL : P.pvccs.WellFormed)
    (hm : P.write16_effect = w1c_write16_effect P.pvccs) (s : Hw)
    (hs : s.dffwmicpvccs < 2 ^ 16) (hp : s.dffwmicpvccs.testBit P.pvccs.mdstschg = true) :
    (∀ i, (mic_privacy_clear_fw_managed_irq P s).dffwmicpvccs.testBit i ≠
        s.dffwmicpvccs.testBit i ↔ i = P.pvccs.mdstschg) ∧
      getField P.pvccs.mdstschg 1 (mic_privacy_clear_fw_managed_irq P s).pvccs_read = 0 ∧
      getField P.pvccs.fmmd 1 (mic_privacy_clear_fw_managed_irq P s).pvccs_read =
        getField P.pvccs.fmmd 1 s.pvccs_read ∧
      getField P.pvccs.fmdsts 1 (mic_privacy_clear_fw_managed_irq P s).pvccs_read =
        getField P.pvccs.fmdsts 1 s.pvccs_read ∧
      getField P.pvccs.mdstschgie 1 (mic_privacy_clear_fw_managed_irq P s).pvccs_read =
        getField P.pvccs.mdstschgie 1 s.pvccs_read ∧
      getField P.pvccs.mdsts 1 (mic_privacy_clear_fw_managed_irq P s).pvccs_read =
        getField P.pvccs.mdsts 1 s.pvccs_read := by
  obtain ⟨hne, h1, h2, h3, h4, h5⟩ := hL.facts
  have hrd : s.pvccs_read = s.dffwmicpvccs := Nat.mod_eq_of_lt hs
  have hbit : ∀ i, (mic_privacy_clear_fw_managed_irq P s).dffwmicpvccs.testBit i =
      if i = P.pvccs.mdstschg then false else s.dffwmicpvccs.testBit i := by
    intro i
    rw [clear_fw_managed_irq_eq]
    simp only []
    rw [hm, testBit_w1c_write16_effect _ hL _ _ _ (Nat.mod_lt _ (by norm_num)),
      testBit_written _ _ _ _ (pvccs_read_lt s), testBit_written _ _ _ _ (pvccs_read_lt s),
      hrd]
    by_cases e1 : i = P.pvccs.mdsts
    · have e2 : ¬ i = P.pvccs.mdstschg := by omega
      rw [if_pos e1, if_neg e2, e1]
    · by_cases e2 : i = P.pvccs.mdstschg
      · rw [if_neg e1, if_pos e2, if_pos e2, if_pos rfl]
        simp [h4]
      · rw [if_neg e1, if_neg e2, if_neg e2, if_neg e2]
  have hlt : (mic_privacy_clear_fw_managed_irq P s).dffwmicpvccs < 2 ^ 16 := by
    rw [clear_fw_managed_irq_eq]
    simp only []
    rw [hm]
    exact w1c_write16_effect_lt _ hL _ _
  have hrd2 : (mic_privacy_clear_fw_managed_irq P s).pvccs_read =
      (mic_privacy_clear_fw_managed_irq P s).dffwmicpvccs := Nat.mod_eq_of_lt hlt
  refine ⟨?_, ?_, ?_, ?_, ?_, ?_⟩
  · intro i
    rw [hbit]
    by_cases e : i = P.pvccs.mdstschg
    · subst e
      simp [hp]
    · simp [e]
  · rw [getField_one, hrd2, hbit, if_pos rfl]
    rfl
  · rw [getField_one, getField_one, hrd2, hrd, hbit,
      if_neg (show ¬ P.pvccs.fmmd = P.pvccs.mdstschg by omega)]
  · rw [getField_one, getField_one, hrd2, hrd, hbit,
      if_neg (show ¬ P.pvccs.fmdsts = P.pvccs.mdstschg by omega)]
  · rw [getField_one, getField_one, hrd2, hrd, hbit,
      if_neg (show ¬ P.pvccs.mdstschgie = P.pvccs.mdstschg by omega)]
  · rw [getField_one, getField_one, hrd2, hrd, hbit,
      if_neg (show ¬ P.pvccs.mdsts = P.pvccs.mdstschg by omega)]

/-- C6 at the sample platform: acknowledging on register value 0x307 leaves
0x207. -/
theorem clear_fw_managed_irq_clears_only_pending_witness :
    sample_platform.pvccs.WellFormed ∧
      sample_platform.write16_effect = w1c_write16_effect sample_platform.pvccs ∧
      (Hw.reset 0 0x307).dffwmicpvccs < 2 ^ 16 ∧
      (Hw.reset 0 0x307).dffwmicpvccs.testBit sample_platform.pvccs.mdstschg = true ∧
      (mic_privacy_clear_fw_managed_irq sample_platform (Hw.reset 0 0x307)).dffwmicpvccs = 0x207 ∧
      getField sample_platform.pvccs.mdstschg 1
        (mic_privacy_clear_fw_managed_irq sample_platform (Hw.reset 0 0x307)).pvccs_read = 0 :=
  ⟨by decide, rfl, by decide, by decide, by decide,
    (clear_fw_managed_irq_clears_only_pending sample_platform (by decide) rfl (Hw.reset 0 0x307)
      (by decide) (by decide)).2.1⟩

/-! ## Interrupt gateway -/

/-- The value the enable operation writes has the interrupt-enable bit set. -/
theorem testBit_enable_written (P : Platform) (hL : P.pvccs.WellFormed) (v : Nat)
    (hv : v < 2 ^ 16) :
    (setField P.pvccs.mdstschgie 1 1 v % 2 ^ 16).testBit P.pvccs.mdstschgie = true := by
  obtain ⟨-, h1, -⟩ := hL.facts
  rw [testBit_written _ _ _ _ hv, if_pos rfl]
  simp [h1]

/-- Trace of the disable-signal call. -/
theorem disable_signal_trace (P : Platform) (s : Hw) (fn : Nat) :
    (mic_privacy_enable_fw_managed_irq P false fn s).trace =
      s.trace ++ [Event.read16 (P.reg_addr + 6),
        Event.write16 (setField P.pvccs.mdstschgie 1 0 s.pvccs_read % 2 ^ 16)
          (P.reg_addr + 6)] := by
  rw [enable_fw_managed_irq_eq]
  simp [CONFIG_ADSP_DFFWMICPVCCS_ADDRESS]

/-- Trace of an enable call made while the interrupt line is already enabled. -/
theorem enable_installed_trace (P : Platform) (s : Hw) (hs : s.irq_enabled = true) (fn : Nat) :
    (mic_privacy_enable_fw_managed_irq P true fn s).trace =
      s.trace ++ [Event.read16 (P.reg_addr + 6),
        Event.write16 (setField P.pvccs.mdstschgie 1 1 s.pvccs_read % 2 ^ 16)
          (P.reg_addr + 6)] := by
  rw [enable_fw_managed_irq_eq]
  simp [hs, CONFIG_ADSP_DFFWMICPVCCS_ADDRESS]

/-- C7: from a state whose interrupt line is not enabled, two calls of
`mic_privacy_enable_fw_managed_irq(true, ·)` in a row produce exactly this
trace: read, write, one `irq_connect_dynamic` of the first handler, one
`irq_enable`, one controller unmask, then read and write again; both written
values have the status-change-interrupt-enable bit equal to 1. -/
theorem enable_fw_managed_irq_twice (P : Platform) (hL : P.pvccs.WellFormed) (s : Hw)
    (hs : s.irq_enabled = false) (fn fn2 : Nat) :
    ∃ w1 w2,
      (mic_privacy_enable_fw_managed_irq P true fn2
          (mic_privacy_enable_fw_managed_irq P true fn s)).trace =
        s.trace ++ [Event.read16 (P.reg_addr + 6), Event.write16 w1 (P.reg_addr + 6),
          Event.irq_connect_dynamic P.irqn fn, Event.irq_enable P.irqn, Event.intc_unmask 1,
          Event.read16 (P.reg_addr + 6), Event.write16 w2 (P.reg_addr + 6)] ∧
      w1.testBit P.pvccs.mdstschgie = true ∧ w2.testBit P.pvccs.mdstschgie = true ∧
      (mic_privacy_enable_fw_managed_irq P true fn2
          (mic_privacy_enable_fw_managed_irq P true fn s)).isr = some fn ∧
      (mic_privacy_enable_fw_managed_irq P true fn2
          (mic_privacy_enable_fw_managed_irq P true fn s)).irq_enabled = true := by
  refine ⟨_, _, ?_, testBit_enable_written P hL _ (pvccs_read_lt s),
    testBit_enable_written P hL _ (pvccs_read_lt (mic_privacy_enable_fw_managed_irq P true fn s)),
    ?_, ?_⟩
  · rw [enable_fw_managed_irq_eq P true fn2, enable_fw_managed_irq_eq P true fn s]
    simp [hs, CONFIG_ADSP_DFFWMICPVCCS_ADDRESS]
  · rw [enable_fw_managed_irq_eq P true fn2, enable_fw_managed_irq_eq P true fn s]
    simp [hs]
  · rw [enable_fw_managed_irq_eq P true fn2, enable_fw_managed_irq_eq P true fn s]
    simp [hs]

/-- C7 at the sample platform, from reset, with the handler 11 passed twice. -/
theorem enable_fw_managed_irq_twice_witness :
    sample_platform.pvccs.WellFormed ∧ (Hw.reset 0 0).irq_enabled = false ∧
      ∃ w1 w2,
        (mic_privacy_enable_fw_managed_irq sample_platform true 11
            (mic_privacy_enable_fw_managed_irq sample_platform true 11 (Hw.reset 0 0))).trace =
          (Hw.reset 0 0).trace ++
            [Event.read16 (sample_platform.reg_addr + 6),
              Event.write16 w1 (sample_platform.reg_addr + 6),
              Event.irq_connect_dynamic sample_platform.irqn 11,
              Event.irq_enable sample_platform.irqn, Event.intc_unmask 1,
              Event.read16 (sample_platform.reg_addr + 6),
              Event.write16 w2 (sample_platform.reg_addr + 6)] ∧
        w1.testBit sample_platform.pvccs.mdstschgie = true ∧
        w2.testBit sample_platform.pvccs.mdstschgie = true ∧
        (mic_privacy_enable_fw_managed_irq sample_platform true 11
            (mic_privacy_enable_fw_managed_irq sample_platform true 11 (Hw.reset 0 0))).isr =
          some 11 ∧
        (mic_privacy_enable_fw_managed_irq sample_platform true 11
            (mic_privacy_enable_fw_managed_irq sample_platform true 11
              (Hw.reset 0 0))).irq_enabled = true :=
  ⟨by decide, rfl,
    enable_fw_managed_irq_twice sample_platform (by decide) (Hw.reset 0 0) rfl 11 11⟩

/-- C8: `mic_privacy_enable_fw_managed_irq(false, fn)` performs one read and one
write of the control/status register and nothing else; the value written is the
value read with the status-change-interrupt-enable bit cleared and every other
bit unchanged; the handler slot, the interrupt line state and the controller's
enable word are as before. -/
theorem disable_signal_frame (P : Platform) (s : Hw) (fn : Nat) :
    (∃ w, (mic_privacy_enable_fw_managed_irq P false fn s).trace =
          s.trace ++ [Event.read16 (P.reg_addr + 6), Event.write16 w (P.reg_addr + 6)] ∧
        w.testBit P.pvccs.mdstschgie = false ∧
        ∀ i, i ≠ P.pvccs.mdstschgie → w.testBit i = s.pvccs_read.testBit i) ∧
      (mic_privacy_enable_fw_managed_irq P false fn s).isr = s.isr ∧
      (mic_privacy_enable_fw_managed_irq P false fn s).irq_enabled = s.irq_enabled ∧
      (mic_privacy_enable_fw_managed_irq P false fn s).intc_ie = s.intc_ie ∧
      (mic_privacy_enable_fw_managed_irq P false fn s).dfmicpvcp = s.dfmicpvcp := by
  refine ⟨⟨_, disable_signal_trace P s fn, ?_, ?_⟩, ?_, ?_, ?_, ?_⟩
  · rw [testBit_written _ _ _ _ (pvccs_read_lt s), if_pos rfl]
    simp
  · intro i hi
    rw [testBit_written _ _ _ _ (pvccs_read_lt s), if_neg hi]
  all_goals simp [enable_fw_managed_irq_eq]

/-- C9 as stated fails: after handler 11 is installed, the enable call that
passes the distinct handler 22 gives no error; its whole outcome equals that of
a call passing 11 again, and the slot still holds 11. -/
theorem second_handler_silently_skipped :
    (mic_privacy_enable_fw_managed_irq sample_platform true 11 (Hw.reset 0 0)).isr = some 11 ∧
      mic_privacy_enable_fw_managed_irq sample_platform true 22
          (mic_privacy_enable_fw_managed_irq sample_platform true 11 (Hw.reset 0 0)) =
        mic_privacy_enable_fw_managed_irq sample_platform true 11
          (mic_privacy_enable_fw_managed_irq sample_platform true 11 (Hw.reset 0 0)) ∧
      (mic_privacy_enable_fw_managed_irq sample_platform true 22
          (mic_privacy_enable_fw_managed_irq sample_platform true 11 (Hw.reset 0 0))).isr =
        some 11 := by
  decide

/-- C9 amended: when the interrupt line is already enabled, an enable call
returns nothing to the caller and its outcome does not depend on the handler
passed: the handler slot, the line state, the controller and the policy register
are left as they were, and the only actions are one read and one write of the
control/status register, the written value being the value read with the
status-change-interrupt-enable bit set to 1 and every other bit unchanged. -/
theorem enable_when_installed_skips (P : Platform) (hL : P.pvccs.WellFormed) (s : Hw)
    (hs : s.irq_enabled = true) (fn : Nat) :
    (∀ fn2, mic_privacy_enable_fw_managed_irq P true fn2 s =
        mic_privacy_enable_fw_managed_irq P true fn s) ∧
      (mic_privacy_enable_fw_managed_irq P true fn s).isr = s.isr ∧
      (mic_privacy_enable_fw_managed_irq P true fn s).irq_enabled = true ∧
      (mic_privacy_enable_fw_managed_irq P true fn s).intc_ie = s.intc_ie ∧
      (mic_privacy_enable_fw_managed_irq P true fn s).dfmicpvcp = s.dfmicpvcp ∧
      ∃ w, (mic_privacy_enable_fw_managed_irq P true fn s).trace =
          s.trace ++ [Event.read16 (P.reg_addr + 6), Event.write16 w (P.reg_addr + 6)] ∧
        w.testBit P.pvccs.mdstschgie = true ∧
        (∀ i, i ≠ P.pvccs.mdstschgie → w.testBit i = s.pvccs_read.testBit i) ∧
        (mic_privacy_enable_fw_managed_irq P true fn s).dffwmicpvccs =
          P.write16_effect s.dffwmicpvccs w := by
  refine ⟨?_, ?_, ?_, ?_, ?_, setField P.pvccs.mdstschgie 1 1 s.pvccs_read % 2 ^ 16,
    enable_installed_trace P s hs fn, testBit_enable_written P hL _ (pvccs_read_lt s), ?_, ?_⟩
  · intro fn2
    rw [enable_fw_managed_irq_eq, enable_fw_managed_irq_eq]
    simp [hs]
  · rw [enable_fw_managed_irq_eq]; simp [hs]
  · rw [enable_fw_managed_irq_eq]; simp [hs]
  · rw [enable_fw_managed_irq_eq]; simp [hs]
  · rw [enable_fw_managed_irq_eq]
  · intro i hi
    rw [testBit_written _ _ _ _ (pvccs_read_lt s), if_neg hi]
  · rw [enable_fw_managed_irq_eq]
    rfl

/-- C9 amended, at the sample platform: with the line already enabled, handler
11 in the slot and the register at 0x005, an enable call passing 22 reads the
register, writes 0x005 back and leaves 11 in the slot. -/
theorem enable_when_installed_skips_witness :
    sample_platform.pvccs.WellFormed ∧
      (mic_privacy_enable_fw_managed_irq sample_platform true 11 (Hw.reset 0 0x004)).irq_enabled =
        true ∧
      (mic_privacy_enable_fw_managed_irq sample_platform true 11
        (Hw.reset 0 0x004)).dffwmicpvccs = 0x005 ∧
      (mic_privacy_enable_fw_managed_irq sample_platform true 22
          (mic_privacy_enable_fw_managed_irq sample_platform true 11 (Hw.reset 0 0x004))).trace =
        (mic_privacy_enable_fw_managed_irq sample_platform true 11 (Hw.reset 0 0x004)).trace ++
          [Event.read16 0x10006, Event.write16 0x005 0x10006] ∧
      (mic_privacy_enable_fw_managed_irq sample_platform true 22
          (mic_privacy_enable_fw_managed_irq sample_platform true 11 (Hw.reset 0 0x004))).isr =
        (mic_privacy_enable_fw_managed_irq sample_platform true 11 (Hw.reset 0 0x004)).isr ∧
      ∃ w, (mic_privacy_enable_fw_managed_irq sample_platform true 22
            (mic_privacy_enable_fw_managed_irq sample_platform true 11
              (Hw.reset 0 0x004))).trace =
          (mic_privacy_enable_fw_managed_irq sample_platform true 11 (Hw.reset 0 0x004)).trace ++
            [Event.read16 (sample_platform.reg_addr + 6),
              Event.write16 w (sample_platform.reg_addr + 6)] ∧
        w.testBit sample_platform.pvccs.mdstschgie = true ∧
        (∀ i, i ≠ sample_platform.pvccs.mdstschgie →
          w.testBit i =
            (mic_privacy_enable_fw_managed_irq sample_platform true 11
              (Hw.reset 0 0x004)).pvccs_read.testBit i) ∧
        (mic_privacy_enable_fw_managed_irq sample_platform true 22
            (mic_privacy_enable_fw_managed_irq sample_platform true 11
              (Hw.reset 0 0x004))).dffwmicpvccs =
          sample_platform.write16_effect
            (mic_privacy_enable_fw_managed_irq sample_platform true 11
              (Hw.reset 0 0x004)).dffwmicpvccs w :=
  ⟨by decide, by decide, by decide, by decide,
    (enable_when_installed_skips sample_platform (by decide)
      (mic_privacy_enable_fw_managed_irq sample_platform true 11 (Hw.reset 0 0x004))
      (by decide) 22).2.1,
    (enable_when_installed_skips sample_platform (by decide)
      (mic_privacy_enable_fw_managed_irq sample_platform true 11 (Hw.reset 0 0x004))
      (by decide) 22).2.2.2.2.2⟩

/-! ## Initialisation -/

/-- C10 as stated fails: `intel_adsp_mic_priv_init` returns 0 for a device whose
configured base address is 0 and whose register block has size 0. -/
theorem init_accepts_zero_base :
    intel_adsp_mic_priv_init { config := { base := 0, regblock_size := 0 } } = 0 := by
  decide

/-- C10 amended: `intel_adsp_mic_priv_init` returns 0 for every device
configuration; it validates neither the base address nor the register-block
size. -/
theorem init_returns_zero (dev : device) : intel_adsp_mic_priv_init dev = 0 := by
  rfl

/-! ## Wait time and link select -/

theorem get_wait_time_eq (P : Platform) (s : Hw) :
    (mic_privacy_get_dma_data_zeroing_wait_time P s).1 =
      getField P.pvcp.ddzwt P.pvcp.ddzwt_width (s.dfmicpvcp % 2 ^ 32) := by
  simp [mic_privacy_get_dma_data_zeroing_wait_time, sys_read32_policy]

theorem get_link_select_eq (P : Platform) (s : Hw) :
    (mic_privacy_get_dma_data_zeroing_link_select P s).1 =
      getField P.pvcp.ddzls P.pvcp.ddzls_width (s.dfmicpvcp % 2 ^ 32) := by
  simp [mic_privacy_get_dma_data_zeroing_link_select, sys_read32_policy]

/-- A field inside the 32-bit register reads the same after a bit outside the
field is flipped. -/
theorem getField_read32_xor (off width v i : Nat) (h32 : off + width ≤ 32)
    (h : i < off ∨ off + width ≤ i) :
    getField off width ((v ^^^ 2 ^ i) % 2 ^ 32) = getField off width (v % 2 ^ 32) := by
  rw [getField_mod_two_pow _ _ _ _ h32, getField_mod_two_pow _ _ _ _ h32,
    getField_xor_two_pow _ _ _ _ h]

/-- The encoded register value is a 32-bit value. -/
theorem encode_lt (L : DFMICPVCP) (hL : L.WellFormed) (e p wt ls : Nat) :
    L.encode e p wt ls < 2 ^ 32 := by
  obtain ⟨⟨a1, a2, a3, a4⟩, -⟩ := hL
  unfold DFMICPVCP.encode
  exact setField_lt _ _ _ _ 32 a1 (setField_lt _ _ _ _ 32 a2
    (setField_lt _ _ _ _ 32 a3 (setField_lt _ _ _ _ 32 a4 (by norm_num))))

/-- The members of the encoded register value read back as encoded. -/
theorem getField_encode (L : DFMICPVCP) (hL : L.WellFormed) (e p wt ls : Nat) :
    getField L.ddze 2 (L.encode e p wt ls) = e % 2 ^ 2 ∧
      getField L.ddzpl 1 (L.encode e p wt ls) = p % 2 ^ 1 ∧
      getField L.ddzwt L.ddzwt_width (L.encode e p wt ls) = wt % 2 ^ L.ddzwt_width ∧
      getField L.ddzls L.ddzls_width (L.encode e p wt ls) = ls % 2 ^ L.ddzls_width := by
  obtain ⟨-, d1, d2, d3, d4, d5, d6⟩ := hL
  unfold DFMICPVCP.encode
  refine ⟨getField_setField_self _ _ _ _, ?_, ?_, ?_⟩
  · rw [getField_setField_of_disjoint _ _ _ _ _ _ (by omega), getField_setField_self]
  · rw [getField_setField_of_disjoint _ _ _ _ _ _ (by omega),
      getField_setField_of_disjoint _ _ _ _ _ _ (by omega), getField_setField_self]
  · rw [getField_setField_of_disjoint _ _ _ _ _ _ (by omega),
      getField_setField_of_disjoint _ _ _ _ _ _ (by omega),
      getField_setField_of_disjoint _ _ _ _ _ _ (by omega), getField_setField_self]

/-- C11: `mic_privacy_get_dma_data_zeroing_wait_time` returns the `ddzwt` field
and `mic_privacy_get_dma_data_zeroing_link_select` the `ddzls` field of the
32-bit register content (shift by the field offset, reduce modulo two to the
field width); flipping any bit of another field changes neither result; and on
the register value encoding enable=2, polarity=1, wait-time=5, link-select=3 the
three getters return HW_MANAGED, 5 and 3. -/
theorem dma_data_zeroing_getters (P : Platform) (hL : P.pvcp.WellFormed)
    (hwt : 5 < 2 ^ P.pvcp.ddzwt_width) (hls : 3 < 2 ^ P.pvcp.ddzls_width) (s : Hw) :
    (mic_privacy_get_dma_data_zeroing_wait_time P s).1 =
        s.dfmicpvcp % 2 ^ 32 / 2 ^ P.pvcp.ddzwt % 2 ^ P.pvcp.ddzwt_width ∧
      (mic_privacy_get_dma_data_zeroing_link_select P s).1 =
        s.dfmicpvcp % 2 ^ 32 / 2 ^ P.pvcp.ddzls % 2 ^ P.pvcp.ddzls_width ∧
      (∀ i, (P.pvcp.ddze ≤ i ∧ i < P.pvcp.ddze + 2) ∨ i = P.pvcp.ddzpl ∨
          (P.pvcp.ddzls ≤ i ∧ i < P.pvcp.ddzls + P.pvcp.ddzls_width) →
        (mic_privacy_get_dma_data_zeroing_wait_time P
            { s with dfmicpvcp := s.dfmicpvcp ^^^ 2 ^ i }).1 =
          (mic_privacy_get_dma_data_zeroing_wait_time P s).1) ∧
      (∀ i, (P.pvcp.ddze ≤ i ∧ i < P.pvcp.ddze + 2) ∨ i = P.pvcp.ddzpl ∨
          (P.pvcp.ddzwt ≤ i ∧ i < P.pvcp.ddzwt + P.pvcp.ddzwt_width) →
        (mic_privacy_get_dma_data_zeroing_link_select P
            { s with dfmicpvcp := s.dfmicpvcp ^^^ 2 ^ i }).1 =
          (mic_privacy_get_dma_data_zeroing_link_select P s).1) ∧
      (mic_privacy_get_policy P { s with dfmicpvcp := P.pvcp.encode 2 1 5 3 }).1 =
        mic_privacy_policy.HW_MANAGED ∧
      (mic_privacy_get_dma_data_zeroing_wait_time P
        { s with dfmicpvcp := P.pvcp.encode 2 1 5 3 }).1 = 5 ∧
      (mic_privacy_get_dma_data_zeroing_link_select P
        { s with dfmicpvcp := P.pvcp.encode 2 1 5 3 }).1 = 3 := by
  have henc := getField_encode P.pvcp hL 2 1 5 3
  have hlt := encode_lt P.pvcp hL 2 1 5 3
  obtain ⟨⟨a1, a2, a3, a4⟩, d1, d2, d3, d4, d5, d6⟩ := hL
  obtain ⟨e1, e2, e3, e4⟩ := henc
  refine ⟨?_, ?_, ?_, ?_, ?_, ?_, ?_⟩
  · rw [get_wait_time_eq, getField, Nat.shiftRight_eq_div_pow]
  · rw [get_link_select_eq, getField, Nat.shiftRight_eq_div_pow]
  · intro i hi
    rw [get_wait_time_eq, get_wait_time_eq]
    exact getField_read32_xor _ _ _ _ a3 (by omega)
  · intro i hi
    rw [get_link_select_eq, get_link_select_eq]
    exact getField_read32_xor _ _ _ _ a4 (by omega)
  · rw [get_policy_eq_table]
    simp only []
    rw [Nat.mod_eq_of_lt hlt, e1, e2]
    rfl
  · rw [get_wait_time_eq]
    simp only []
    rw [Nat.mod_eq_of_lt hlt, e3, Nat.mod_eq_of_lt hwt]
  · rw [get_link_select_eq]
    simp only []
    rw [Nat.mod_eq_of_lt hlt, e4, Nat.mod_eq_of_lt hls]

/-- C11 at the sample layout: the register value 0x00050306 encodes enable=2,
polarity=1, wait-time=5, link-select=3, and the wait-time getter returns 5. -/
theorem dma_data_zeroing_getters_witness :
    sample_platform.pvcp.WellFormed ∧ 5 < 2 ^ sample_platform.pvcp.ddzwt_width ∧
      3 < 2 ^ sample_platform.pvcp.ddzls_width ∧
      sample_platform.pvcp.encode 2 1 5 3 = 0x00050306 ∧
      (mic_privacy_get_dma_data_zeroing_wait_time sample_platform
        { Hw.reset 0 0 with dfmicpvcp := sample_platform.pvcp.encode 2 1 5 3 }).1 = 5 :=
  ⟨by decide, by decide, by decide, by decide,
    (dma_data_zeroing_getters sample_platform (by decide) (by decide) (by decide)
      (Hw.reset 0 0)).2.2.2.2.2.1⟩

/-! ## Read operations -/

/-- C12: `mic_privacy_get_privacy_policy_register_raw_value` returns the 32-bit
content of the policy control register as it is, and each of the six read
operations leaves the state as it was except for logging its single register
read: both registers, the handler slot, the line state and the controller word
are unchanged and no write is performed. -/
theorem read_operations_frame (P : Platform) (s : Hw) :
    (mic_privacy_get_privacy_policy_register_raw_value P s).1 = s.dfmicpvcp % 2 ^ 32 ∧
      (s.dfmicpvcp < 2 ^ 32 →
        (mic_privacy_get_privacy_policy_register_raw_value P s).1 = s.dfmicpvcp) ∧
      (mic_privacy_get_policy P s).2 =
        { s with trace := s.trace ++ [Event.read32 P.reg_addr] } ∧
      (mic_privacy_get_privacy_policy_register_raw_value P s).2 =
        { s with trace := s.trace ++ [Event.read32 P.reg_addr] } ∧
      (mic_privacy_get_dma_data_zeroing_wait_time P s).2 =
        { s with trace := s.trace ++ [Event.read32 P.reg_addr] } ∧
      (mic_privacy_get_dma_data_zeroing_link_select P s).2 =
        { s with trace := s.trace ++ [Event.read32 P.reg_addr] } ∧
      (mic_privacy_get_fw_mic_disable_status P s).2 =
        { s with trace := s.trace ++ [Event.read16 (P.reg_addr + 6)] } ∧
      (mic_privacy_get_fw_managed_mic_disable_status P s).2 =
        { s with trace := s.trace ++ [Event.read16 (P.reg_addr + 6)] } := by
  refine ⟨?_, ?_, ?_, ?_, ?_, ?_, ?_, ?_⟩
  · simp [mic_privacy_get_privacy_policy_register_raw_value, sys_read32_policy]
  · intro h
    unfold mic_privacy_get_privacy_policy_register_raw_value
    rw [sys_read32_policy, Nat.mod_eq_of_lt h]
  · unfold mic_privacy_get_policy
    simp only []
    split_ifs <;> rfl
  · rfl
  · rfl
  · rfl
  · rfl
  · rfl

/-! ## Privacy mask -/

/-- C13: in a `privacy_mask` holding `v`, the member `sndw` is `v mod 128` and
the member `dmic` is `(v / 128) mod 2`; assigning either member leaves the other
as it was, and flipping any of the bits 8 and above changes neither. -/
theorem privacy_mask_fields (m : privacy_mask) :
    m.sndw = m.value % 128 ∧ m.dmic = m.value / 128 % 2 ∧
      (∀ x, privacy_mask.dmic { value := setField 0 7 x m.value } = m.dmic) ∧
      (∀ x, privacy_mask.sndw { value := setField 7 1 x m.value } = m.sndw) ∧
      (∀ i, 8 ≤ i →
        privacy_mask.sndw { value := m.value ^^^ 2 ^ i } = m.sndw ∧
          privacy_mask.dmic { value := m.value ^^^ 2 ^ i } = m.dmic) := by
  unfold privacy_mask.sndw privacy_mask.dmic
  simp only []
  refine ⟨?_, ?_, ?_, ?_, ?_⟩
  · rw [getField_mod_two_pow _ _ _ _ (by norm_num), getField, Nat.shiftRight_eq_div_pow]
    norm_num
  · rw [getField_mod_two_pow _ _ _ _ (by norm_num), getField, Nat.shiftRight_eq_div_pow]
    norm_num
  · intro x
    rw [getField_mod_two_pow _ _ _ _ (by norm_num), getField_mod_two_pow _ _ _ _ (by norm_num),
      getField_setField_of_disjoint _ _ _ _ _ _ (by omega)]
  · intro x
    rw [getField_mod_two_pow _ _ _ _ (by norm_num), getField_mod_two_pow _ _ _ _ (by norm_num),
      getField_setField_of_disjoint _ _ _ _ _ _ (by omega)]
  · intro i hi
    exact ⟨getField_read32_xor _ _ _ _ (by norm_num) (by omega),
      getField_read32_xor _ _ _ _ (by norm_num) (by omega)⟩

/-! ## Register accesses of the setters -/

/-- C14: each of `mic_privacy_set_fw_managed_mode` and
`mic_privacy_set_fw_mic_disable_status` performs exactly one 16-bit read followed
by exactly one 16-bit write, both at the base address plus 0x0006, and nothing
else: the policy control register, the handler slot, the line state and the
controller word are as before. -/
theorem setters_register_accesses (P : Platform) (s : Hw) (b : Bool) :
    (∃ w, (mic_privacy_set_fw_managed_mode P b s).trace =
        s.trace ++ [Event.read16 (P.reg_addr + 0x0006), Event.write16 w (P.reg_addr + 0x0006)]) ∧
      (∃ w, (mic_privacy_set_fw_mic_disable_status P b s).trace =
        s.trace ++ [Event.read16 (P.reg_addr + 0x0006), Event.write16 w (P.reg_addr + 0x0006)]) ∧
      (mic_privacy_set_fw_managed_mode P b s).dfmicpvcp = s.dfmicpvcp ∧
      (mic_privacy_set_fw_mic_disable_status P b s).dfmicpvcp = s.dfmicpvcp ∧
      ((mic_privacy_set_fw_managed_mode P b s).isr = s.isr ∧
        (mic_privacy_set_fw_managed_mode P b s).irq_enabled = s.irq_enabled ∧
        (mic_privacy_set_fw_managed_mode P b s).intc_ie = s.intc_ie) ∧
      ((mic_privacy_set_fw_mic_disable_status P b s).isr = s.isr ∧
        (mic_privacy_set_fw_mic_disable_status P b s).irq_enabled = s.irq_enabled ∧
        (mic_privacy_set_fw_mic_disable_status P b s).intc_ie = s.intc_ie) := by
  refine ⟨⟨_, by rw [set_fw_managed_mode_eq]; rfl⟩,
    ⟨_, by rw [set_fw_mic_disable_status_eq]; rfl⟩, ?_, ?_, ⟨?_, ?_, ?_⟩, ⟨?_, ?_, ?_⟩⟩ <;>
  first
  | rw [set_fw_managed_mode_eq]
  | rw [set_fw_mic_disable_status_eq]

/-! ## Installing the handler -/

/-- C15: with the interrupt line not enabled,
`mic_privacy_enable_fw_managed_irq(true, fn)` performs, after its register read,
exactly these effects in this order: the write of the control/status register
(interrupt-enable bit 1, other bits as read), `irq_connect_dynamic` of `fn` for
the configured interrupt, `irq_enable` of that interrupt, the controller unmask;
afterwards `fn` is bound, the line is enabled and the controller word is
`BIT(0)`. -/
theorem enable_first_call_order (P : Platform) (hL : P.pvccs.WellFormed) (s : Hw)
    (hs : s.irq_enabled = false) (fn : Nat) :
    ∃ w, (mic_privacy_enable_fw_managed_irq P true fn s).trace =
        s.trace ++ [Event.read16 (P.reg_addr + 6), Event.write16 w (P.reg_addr + 6),
          Event.irq_connect_dynamic P.irqn fn, Event.irq_enable P.irqn, Event.intc_unmask 1] ∧
      w.testBit P.pvccs.mdstschgie = true ∧
      (∀ i, i ≠ P.pvccs.mdstschgie → w.testBit i = s.pvccs_read.testBit i) ∧
      (mic_privacy_enable_fw_managed_irq P true fn s).isr = some fn ∧
      (mic_privacy_enable_fw_managed_irq P true fn s).irq_enabled = true ∧
      (mic_privacy_enable_fw_managed_irq P true fn s).intc_ie = 1 := by
  refine ⟨setField P.pvccs.mdstschgie 1 1 s.pvccs_read % 2 ^ 16, ?_,
    testBit_enable_written P hL _ (pvccs_read_lt s), ?_, ?_, ?_, ?_⟩
  · rw [enable_fw_managed_irq_eq]
    simp [hs, CONFIG_ADSP_DFFWMICPVCCS_ADDRESS]
  · intro i hi
    rw [testBit_written _ _ _ _ (pvccs_read_lt s), if_neg hi]
  · rw [enable_fw_managed_irq_eq]; simp [hs]
  · rw [enable_fw_managed_irq_eq]; simp [hs]
  · rw [enable_fw_managed_irq_eq]; simp [hs]

/-- C15 at the sample platform, from reset with register value 0x006 and
handler 11. -/
theorem enable_first_call_order_witness :
    sample_platform.pvccs.WellFormed ∧ (Hw.reset 0 0x006).irq_enabled = false ∧
      (mic_privacy_enable_fw_managed_irq sample_platform true 11 (Hw.reset 0 0x006)).trace =
        [Event.read16 0x10006, Event.write16 0x007 0x10006, Event.irq_connect_dynamic 5 11,
          Event.irq_enable 5, Event.intc_unmask 1] ∧
      ∃ w, (mic_privacy_enable_fw_managed_irq sample_platform true 11 (Hw.reset 0 0x006)).trace =
          (Hw.reset 0 0x006).trace ++ [Event.read16 (sample_platform.reg_addr + 6),
            Event.write16 w (sample_platform.reg_addr + 6),
            Event.irq_connect_dynamic sample_platform.irqn 11,
            Event.irq_enable sample_platform.irqn, Event.intc_unmask 1] ∧
        w.testBit sample_platform.pvccs.mdstschgie = true ∧
        (∀ i, i ≠ sample_platform.pvccs.mdstschgie →
          w.testBit i = (Hw.reset 0 0x006).pvccs_read.testBit i) ∧
        (mic_privacy_enable_fw_managed_irq sample_platform true 11 (Hw.reset 0 0x006)).isr =
          some 11 ∧
        (mic_privacy_enable_fw_managed_irq sample_platform true 11
          (Hw.reset 0 0x006)).irq_enabled = true ∧
        (mic_privacy_enable_fw_managed_irq sample_platform true 11
          (Hw.reset 0 0x006)).intc_ie = 1 :=
  ⟨by decide, rfl, by decide,
    enable_first_call_order sample_platform (by decide) (Hw.reset 0 0x006) rfl 11⟩

/-- One enable call made while the line is enabled: slot, line state, controller
word and the binding events of the trace are as before. -/
theorem enable_installed_keeps (P : Platform) (s : Hw) (hs : s.irq_enabled = true) (fn : Nat) :
    (mic_privacy_enable_fw_managed_irq P true fn s).irq_enabled = true ∧
      (mic_privacy_enable_fw_managed_irq P true fn s).isr = s.isr ∧
      (mic_privacy_enable_fw_managed_irq P true fn s).intc_ie = s.intc_ie ∧
      (mic_privacy_enable_fw_managed_irq P true fn s).trace.filter Event.binds =
        s.trace.filter Event.binds := by
  rw [enable_fw_managed_irq_eq]
  simp [hs, Event.binds]

/-- Any sequence of enable calls made while the line is enabled: slot, line
state, controller word and the binding events of the trace are as before. -/
theorem enable_calls_installed_keeps (P : Platform) (handlers : List Nat) (s : Hw)
    (hs : s.irq_enabled = true) :
    (enable_calls P handlers s).irq_enabled = true ∧
      (enable_calls P handlers s).isr = s.isr ∧
      (enable_calls P handlers s).intc_ie = s.intc_ie ∧
      (enable_calls P handlers s).trace.filter Event.binds = s.trace.filter Event.binds := by
  induction handlers generalizing s with
  | nil => exact ⟨hs, rfl, rfl, rfl⟩
  | cons h rest ih =>
    obtain ⟨k1, k2, k3, k4⟩ := enable_installed_keeps P s hs h
    obtain ⟨j1, j2, j3, j4⟩ := ih (mic_privacy_enable_fw_managed_irq P true h s) k1
    have hstep : enable_calls P (h :: rest) s =
        enable_calls P rest (mic_privacy_enable_fw_managed_irq P true h s) := rfl
    rw [hstep]
    exact ⟨j1, j2.trans k2, j3.trans k3, j4.trans k4⟩

/-- C16: from a state whose interrupt line is not enabled, after the enable calls
`mic_privacy_enable_fw_managed_irq(true, h)` for the handlers `h :: rest` in
order, the slot holds the first handler `h`, the line is enabled, and the trace
has gained exactly one binding event, the `irq_connect_dynamic` of `h`: every
later call skips the registration. -/
theorem enable_calls_bind_first (P : Platform) (s : Hw) (hs : s.irq_enabled = false)
    (h : Nat) (rest : List Nat) :
    (enable_calls P (h :: rest) s).isr = some h ∧
      (enable_calls P (h :: rest) s).irq_enabled = true ∧
      (enable_calls P (h :: rest) s).trace.filter Event.binds =
        s.trace.filter Event.binds ++ [Event.irq_connect_dynamic P.irqn h] ∧
      ((enable_calls P (h :: rest) s).trace.filter Event.binds).length =
        (s.trace.filter Event.binds).length + 1 := by
  have hstep : enable_calls P (h :: rest) s =
      enable_calls P rest (mic_privacy_enable_fw_managed_irq P true h s) := rfl
  have h1 : (mic_privacy_enable_fw_managed_irq P true h s).irq_enabled = true := by
    rw [enable_fw_managed_irq_eq]; simp [hs]
  have h2 : (mic_privacy_enable_fw_managed_irq P true h s).isr = some h := by
    rw [enable_fw_managed_irq_eq]; simp [hs]
  have h3 : (mic_privacy_enable_fw_managed_irq P true h s).trace.filter Event.binds =
      s.trace.filter Event.binds ++ [Event.irq_connect_dynamic P.irqn h] := by
    rw [enable_fw_managed_irq_eq]; simp [hs, Event.binds]
  obtain ⟨j1, j2, -, j4⟩ :=
    enable_calls_installed_keeps P rest (mic_privacy_enable_fw_managed_irq P true h s) h1
  rw [hstep]
  refine ⟨j2.trans h2, j1, j4.trans h3, ?_⟩
  rw [j4, h3]
  simp

/-- C16 at the sample platform: the handlers 11, 22, 33 passed in this order
from reset leave 11 bound, with one binding event in the trace. -/
theorem enable_calls_bind_first_witness :
    (Hw.reset 0 0).irq_enabled = false ∧
      (enable_calls sample_platform [11, 22, 33] (Hw.reset 0 0)).isr = some 11 ∧
      (enable_calls sample_platform [11, 22, 33] (Hw.reset 0 0)).trace.filter Event.binds =
        (Hw.reset 0 0).trace.filter Event.binds ++
          [Event.irq_connect_dynamic sample_platform.irqn 11] :=
  ⟨rfl, (enable_calls_bind_first sample_platform (Hw.reset 0 0) rfl 11 [22, 33]).1,
    (enable_calls_bind_first sample_platform (Hw.reset 0 0) rfl 11 [22, 33]).2.2.1⟩

/-! ## The gateway over call sequences -/

/-- The state after `mic_privacy_get_policy` is the state before with the read
logged. -/
theorem get_policy_state (P : Platform) (s : Hw) :
    (mic_privacy_get_policy P s).2 = { s with trace := s.trace ++ [Event.read32 P.reg_addr] } := by
  unfold mic_privacy_get_policy
  simp only []
  split_ifs <;> rfl

/-- One call through `mic_privacy_ops` made while the line is enabled keeps the
line enabled and the handler slot as it was. -/
theorem mic_privacy_ops_keeps (P : Platform) (c : mic_privacy_api_funcs) (s : Hw)
    (hs : s.irq_enabled = true) :
    (mic_privacy_ops P c s).irq_enabled = true ∧ (mic_privacy_ops P c s).isr = s.isr := by
  cases c with
  | enable_fw_managed_irq b fn =>
    simp only [mic_privacy_ops]
    rw [enable_fw_managed_irq_eq]
    cases b <;> simp [hs]
  | clear_fw_managed_irq =>
    simp only [mic_privacy_ops]
    rw [clear_fw_managed_irq_eq]
    exact ⟨hs, rfl⟩
  | get_policy =>
    simp only [mic_privacy_ops]
    rw [get_policy_state]
    exact ⟨hs, rfl⟩
  | get_privacy_policy_register_raw_value => exact ⟨hs, rfl⟩
  | get_dma_data_zeroing_wait_time => exact ⟨hs, rfl⟩
  | get_dma_data_zeroing_link_select => exact ⟨hs, rfl⟩
  | get_fw_managed_mic_disable_status => exact ⟨hs, rfl⟩
  | set_fw_managed_mode b =>
    simp only [mic_privacy_ops]
    rw [set_fw_managed_mode_eq]
    exact ⟨hs, rfl⟩
  | set_fw_mic_disable_status b =>
    simp only [mic_privacy_ops]
    rw [set_fw_mic_disable_status_eq]
    exact ⟨hs, rfl⟩
  | get_fw_mic_disable_status => exact ⟨hs, rfl⟩

/-- C17: once the interrupt line is enabled and a handler is in the slot, after
any finite sequence of calls through `mic_privacy_ops` (enable or disable of the
signal, acknowledge, the two setters, the six getters, with any arguments) the
line is still enabled and the slot still holds the same handler. -/
theorem gateway_only_forward (P : Platform) (calls : List mic_privacy_api_funcs) (s : Hw)
    (hs : s.irq_enabled = true) :
    (run_calls P calls s).irq_enabled = true ∧ (run_calls P calls s).isr = s.isr := by
  induction calls generalizing s with
  | nil => exact ⟨hs, rfl⟩
  | cons c rest ih =>
    obtain ⟨k1, k2⟩ := mic_privacy_ops_keeps P c s hs
    obtain ⟨j1, j2⟩ := ih (mic_privacy_ops P c s) k1
    have hstep : run_calls P (c :: rest) s = run_calls P rest (mic_privacy_ops P c s) := rfl
    rw [hstep]
    exact ⟨j1, j2.trans k2⟩

/-- C17 at the sample platform: after handler 11 is installed, the sequence
disable-signal, acknowledge, set mode, get policy, enable with handler 22 leaves
the line enabled and 11 in the slot. -/
theorem gateway_only_forward_witness :
    (mic_privacy_enable_fw_managed_irq sample_platform true 11 (Hw.reset 0 0)).irq_enabled =
        true ∧
      (run_calls sample_platform
          [mic_privacy_api_funcs.enable_fw_managed_irq false 0,
            mic_privacy_api_funcs.clear_fw_managed_irq,
            mic_privacy_api_funcs.set_fw_managed_mode true,
            mic_privacy_api_funcs.get_policy,
            mic_privacy_api_funcs.enable_fw_managed_irq true 22]
          (mic_privacy_enable_fw_managed_irq sample_platform true 11 (Hw.reset 0 0))).isr =
        some 11 ∧
      (run_calls sample_platform
          [mic_privacy_api_funcs.enable_fw_managed_irq false 0,
            mic_privacy_api_funcs.clear_fw_managed_irq,
            mic_privacy_api_funcs.set_fw_managed_mode true,
            mic_privacy_api_funcs.get_policy,
            mic_privacy_api_funcs.enable_fw_managed_irq true 22]
          (mic_privacy_enable_fw_managed_irq sample_platform true 11
            (Hw.reset 0 0))).irq_enabled = true :=
  ⟨by decide,
    (gateway_only_forward sample_platform _
      (mic_privacy_enable_fw_managed_irq sample_platform true 11 (Hw.reset 0 0))
      (by decide)).2,
    (gateway_only_forward sample_platform _
      (mic_privacy_enable_fw_managed_irq sample_platform true 11 (Hw.reset 0 0))
      (by decide)).1⟩

/-- C18: `mic_privacy_enable_fw_managed_irq` issues `irq_connect_dynamic`,
`irq_enable` and the controller unmask exactly when `enable_irq` is true and the
interrupt line is reported as not enabled; the written value has the
interrupt-enable bit 1 whenever `enable_irq` is true. So when the line is already
enabled at the first enable call, the handlers of that call and of every later
enable call are never bound: the slot and the binding events stay as they
were. -/
theorem enable_decision (P : Platform) (hL : P.pvccs.WellFormed) (s : Hw) (b : Bool)
    (fn : Nat) :
    (∃ w, (mic_privacy_enable_fw_managed_irq P b fn s).trace =
          s.trace ++ [Event.read16 (P.reg_addr + 6), Event.write16 w (P.reg_addr + 6)] ++
            (if b = true ∧ s.irq_enabled = false then
              [Event.irq_connect_dynamic P.irqn fn, Event.irq_enable P.irqn,
                Event.intc_unmask 1]
            else []) ∧
        (b = true → w.testBit P.pvccs.mdstschgie = true)) ∧
      (s.irq_enabled = true → ∀ handlers,
        (enable_calls P (fn :: handlers) s).isr = s.isr ∧
          (enable_calls P (fn :: handlers) s).trace.filter Event.binds =
            s.trace.filter Event.binds) := by
  refine ⟨⟨setField P.pvccs.mdstschgie 1 (if b then 1 else 0) s.pvccs_read % 2 ^ 16, ?_, ?_⟩,
    ?_⟩
  · rw [enable_fw_managed_irq_eq]
    cases b <;> cases hs : s.irq_enabled <;> simp [CONFIG_ADSP_DFFWMICPVCCS_ADDRESS]
  · intro hb
    subst hb
    exact testBit_enable_written P hL _ (pvccs_read_lt s)
  · intro hs handlers
    obtain ⟨-, j2, -, j4⟩ := enable_calls_installed_keeps P (fn :: handlers) s hs
    exact ⟨j2, j4⟩

/-- C18 at the sample platform: with the line already enabled and an empty
slot, the enable call with handler 11 writes 0x001 and binds nothing. -/
theorem enable_decision_witness :
    sample_platform.pvccs.WellFormed ∧
      (mic_privacy_enable_fw_managed_irq sample_platform true 11
          { Hw.reset 0 0 with irq_enabled := true }).trace =
        [Event.read16 0x10006, Event.write16 0x001 0x10006] ∧
      (enable_calls sample_platform [11, 22] { Hw.reset 0 0 with irq_enabled := true }).isr =
        none ∧
      (enable_calls sample_platform [11, 22]
          { Hw.reset 0 0 with irq_enabled := true }).trace.filter Event.binds = [] :=
  ⟨by decide, by decide,
    ((enable_decision sample_platform (by decide) { Hw.reset 0 0 with irq_enabled := true }
      true 11).2 rfl [22]).1,
    ((enable_decision sample_platform (by decide) { Hw.reset 0 0 with irq_enabled := true }
      true 11).2 rfl [22]).2⟩

/-! ## Setters on a register that stores what is written -/

/-- The register after a read-modify-write of a one-bit field, on a register
that stores what is written: the 16-bit value written. -/
theorem store_register_after (P : Platform) (hm : P.write16_effect = store_write16_effect)
    (old data : Nat) :
    P.write16_effect old (data % 2 ^ 16) = data % 2 ^ 16 := by
  rw [hm, store_write16_effect, Nat.mod_mod]

/-- Two one-bit field assignments in a row, each truncated to 16 bits, read bit
by bit. -/
theorem testBit_written_twice (p q x y v i : Nat) (hv : v < 2 ^ 16) :
    (setField q 1 y (setField p 1 x v % 2 ^ 16) % 2 ^ 16).testBit i =
      if i = q then (decide (q < 16) && y.testBit 0)
      else if i = p then (decide (p < 16) && x.testBit 0) else v.testBit i := by
  rw [testBit_written _ _ _ _ (Nat.mod_lt _ (by norm_num)), testBit_written _ _ _ _ hv]

/-- C19: on a register that stores exactly the value written,
`mic_privacy_set_fw_managed_mode` and `mic_privacy_set_fw_mic_disable_status` are
each idempotent (two calls with the same argument leave the register value of
one call) and they commute (either order leaves the same register value), for
all arguments and every initial register value. -/
theorem setters_idempotent_commute (P : Platform) (hL : P.pvccs.WellFormed)
    (hm : P.write16_effect = store_write16_effect) (s : Hw) (a b : Bool) :
    (mic_privacy_set_fw_managed_mode P a (mic_privacy_set_fw_managed_mode P a s)).dffwmicpvccs =
        (mic_privacy_set_fw_managed_mode P a s).dffwmicpvccs ∧
      (mic_privacy_set_fw_mic_disable_status P b
          (mic_privacy_set_fw_mic_disable_status P b s)).dffwmicpvccs =
        (mic_privacy_set_fw_mic_disable_status P b s).dffwmicpvccs ∧
      (mic_privacy_set_fw_mic_disable_status P b
          (mic_privacy_set_fw_managed_mode P a s)).dffwmicpvccs =
        (mic_privacy_set_fw_managed_mode P a
          (mic_privacy_set_fw_mic_disable_status P b s)).dffwmicpvccs := by
  obtain ⟨hne, -⟩ := hL.facts
  have hv := pvccs_read_lt s
  refine ⟨?_, ?_, ?_⟩
  · rw [set_fw_managed_mode_eq P a (mic_privacy_set_fw_managed_mode P a s),
      set_fw_managed_mode_eq P a s]
    simp only [Hw.pvccs_read, store_register_after P hm, Nat.mod_mod]
    apply Nat.eq_of_testBit_eq
    intro i
    rw [testBit_written_twice _ _ _ _ _ _ (Nat.mod_lt _ (by norm_num)),
      testBit_written _ _ _ _ (Nat.mod_lt _ (by norm_num))]
    by_cases h : i = P.pvccs.fmmd
    · rw [if_pos h, if_pos h]
    · simp only [if_neg h]
  · rw [set_fw_mic_disable_status_eq P b (mic_privacy_set_fw_mic_disable_status P b s),
      set_fw_mic_disable_status_eq P b s]
    simp only [Hw.pvccs_read, store_register_after P hm, Nat.mod_mod]
    apply Nat.eq_of_testBit_eq
    intro i
    rw [testBit_written_twice _ _ _ _ _ _ (Nat.mod_lt _ (by norm_num)),
      testBit_written _ _ _ _ (Nat.mod_lt _ (by norm_num))]
    by_cases h : i = P.pvccs.fmdsts
    · rw [if_pos h, if_pos h]
    · simp only [if_neg h]
  · rw [set_fw_mic_disable_status_eq P b (mic_privacy_set_fw_managed_mode P a s),
      set_fw_managed_mode_eq P a s,
      set_fw_managed_mode_eq P a (mic_privacy_set_fw_mic_disable_status P b s),
      set_fw_mic_disable_status_eq P b s]
    simp only [Hw.pvccs_read, store_register_after P hm, Nat.mod_mod]
    apply Nat.eq_of_testBit_eq
    intro i
    rw [testBit_written_twice _ _ _ _ _ _ (Nat.mod_lt _ (by norm_num)),
      testBit_written_twice _ _ _ _ _ _ (Nat.mod_lt _ (by norm_num))]
    by_cases h1 : i = P.pvccs.fmdsts
    · have h2 : ¬ i = P.pvccs.fmmd := by omega
      rw [if_pos h1, if_neg h2, if_pos h1]
    · rw [if_neg h1, if_neg h1]

/-- C19 at the sample platform with a storing register, from the register value
0x300: mode(true) then disable(true) and the opposite order both leave 0x306. -/
theorem setters_idempotent_commute_witness :
    sample_store_platform.pvccs.WellFormed ∧
      sample_store_platform.write16_effect = store_write16_effect ∧
      (mic_privacy_set_fw_mic_disable_status sample_store_platform true
          (mic_privacy_set_fw_managed_mode sample_store_platform true
            (Hw.reset 0 0x300))).dffwmicpvccs = 0x306 ∧
      (mic_privacy_set_fw_mic_disable_status sample_store_platform true
          (mic_privacy_set_fw_managed_mode sample_store_platform true
            (Hw.reset 0 0x300))).dffwmicpvccs =
        (mic_privacy_set_fw_managed_mode sample_store_platform true
          (mic_privacy_set_fw_mic_disable_status sample_store_platform true
            (Hw.reset 0 0x300))).dffwmicpvccs :=
  ⟨by decide, rfl, by decide,
    (setters_idempotent_commute sample_store_platform (by decide) rfl (Hw.reset 0 0x300)
      true true).2.2⟩

end MicPrivacy
